import Mathlib

/-!
Verification development for the CSV order-ingestion pipeline
(`cleanse.py`, `io_utils.py`, `main.py`).

Strings are modelled as lists of characters (`Str`).  Python string
operations used by the source (`strip`, `upper`, `lower`, `split`,
`replace`, membership, regular-expression character filters) are given
executable models below, scoped to the ASCII behaviour the pipeline
relies on (the source's regexes are used without `re.UNICODE`-specific
behaviour being relevant to any claim).  Python floats are modelled as
exact rationals (`ℚ`): `float(...)` applied to the digit/`.`/`-`
strings the pipeline produces is decimal parsing, and the observable
`str`/`float` round-trip behaviour is preserved by this model.

External collaborators are kept abstract in an `Env` bundle:
Unicode NFKC normalization (`unicodedata.normalize("NFKC", ·)` inside
`normalize_text`), the unconstrained general-purpose date interpreter
(`pandas.to_datetime`, tried by `parse_date` before its fixed format
list), the JSON row serializer and the ingestion timestamp.  The spec
itself treats text normalization and the flexible date parser as
external/implementation-defined, so theorems quantify over them and
state the properties of the flexible parser they need as hypotheses.
-/

/-- Characters of a Python string, in order. -/
abbrev Str := List Char

/-- Numeric value of a decimal digit character. -/
def dig (c : Char) : Nat := c.toNat - 48

/-- Decimal digit character for a value below ten. -/
def digitChar : Nat → Char
  | 0 => '0'
  | 1 => '1'
  | 2 => '2'
  | 3 => '3'
  | 4 => '4'
  | 5 => '5'
  | 6 => '6'
  | 7 => '7'
  | 8 => '8'
  | 9 => '9'
  | _ => '0'

/-- Value of a string of decimal digit characters (most significant first). -/
def natOfDigits (l : Str) : Nat := l.foldl (fun a c => 10 * a + dig c) 0

/-- Little-endian base-ten digits with explicit fuel (the fuel bounds
the number, so recursion is structural and evaluates in the kernel). -/
def natDigitsF : Nat → Nat → List Nat
  | 0, _ => []
  | fuel + 1, n => if n = 0 then [] else (n % 10) :: natDigitsF fuel (n / 10)

/-- Little-endian base-ten digits of a natural number. -/
def natDigits (n : Nat) : List Nat := natDigitsF n n

/-- Decimal rendering of a natural number (no sign, no leading zeros,
`"0"` for zero). -/
def renderNat (n : Nat) : Str :=
  if n = 0 then ['0'] else ((natDigits n).map digitChar).reverse

/-- Decimal rendering of an integer. -/
def renderInt (z : Int) : Str :=
  if z < 0 then '-' :: renderNat z.natAbs else renderNat z.natAbs

/-- ASCII-scoped model of Python `str.upper` on one character. -/
def upChar : Char → Char
  | 'a' => 'A' | 'b' => 'B' | 'c' => 'C' | 'd' => 'D' | 'e' => 'E'
  | 'f' => 'F' | 'g' => 'G' | 'h' => 'H' | 'i' => 'I' | 'j' => 'J'
  | 'k' => 'K' | 'l' => 'L' | 'm' => 'M' | 'n' => 'N' | 'o' => 'O'
  | 'p' => 'P' | 'q' => 'Q' | 'r' => 'R' | 's' => 'S' | 't' => 'T'
  | 'u' => 'U' | 'v' => 'V' | 'w' => 'W' | 'x' => 'X' | 'y' => 'Y'
  | 'z' => 'Z'
  | c => c

/-- ASCII-scoped model of Python `str.lower` on one character. -/
def lowChar : Char → Char
  | 'A' => 'a' | 'B' => 'b' | 'C' => 'c' | 'D' => 'd' | 'E' => 'e'
  | 'F' => 'f' | 'G' => 'g' | 'H' => 'h' | 'I' => 'i' | 'J' => 'j'
  | 'K' => 'k' | 'L' => 'l' | 'M' => 'm' | 'N' => 'n' | 'O' => 'o'
  | 'P' => 'p' | 'Q' => 'q' | 'R' => 'r' | 'S' => 's' | 'T' => 't'
  | 'U' => 'u' | 'V' => 'v' | 'W' => 'w' | 'X' => 'x' | 'Y' => 'y'
  | 'Z' => 'z'
  | c => c

/-- Model of Python `str.upper`. -/
def pyUpper (s : Str) : Str := s.map upChar

/-- Model of Python `str.lower`. -/
def pyLower (s : Str) : Str := s.map lowChar

/-- Model of Python `str.strip()` (whitespace trimmed from both ends). -/
def pyStrip (s : Str) : Str :=
  ((s.dropWhile Char.isWhitespace).reverse.dropWhile Char.isWhitespace).reverse

/-- Model of Python `str.split()` with no separator: split on whitespace
runs, dropping empty pieces. -/
def splitWs : Str → List Str
  | [] => []
  | c :: rest =>
    if c.isWhitespace then splitWs rest
    else
      match rest with
      | [] => [[c]]
      | d :: _ =>
        if d.isWhitespace then [c] :: splitWs rest
        else
          match splitWs rest with
          | w :: ws => (c :: w) :: ws
          | [] => [[c]]

/-- Join a list of words with single spaces (`" ".join`). -/
def joinList : List Str → Str
  | [] => []
  | [w] => w
  | w :: rest => w ++ ' ' :: joinList rest

/-- Model of `" ".join(s.split())`: collapse whitespace runs to single
spaces and drop edge whitespace. -/
def joinWords (s : Str) : Str := joinList (splitWs s)

/-- Python truthiness of an optional string (`None` and `""` are falsy). -/
def pyTruthy (o : Option Str) : Bool :=
  match o with
  | none => false
  | some s => !s.isEmpty

/-- Model of Python's `x or ""` / `.get(k, "")` coercion to a string. -/
def pyGetStr (o : Option Str) : Str := o.getD []

/-- Model of Python's `a or b` for optional strings (`None`/`""` falsy). -/
def pyOrS (a b : Option Str) : Option Str :=
  match a with
  | none => b
  | some s => if s = [] then b else some s

/-- Model of `io_utils.normalize_text`: NFKC-normalize (abstract `nfkc`
argument), strip, and collapse internal whitespace to single spaces.
`None` passes through. -/
def normalize_text (nfkc : Str → Str) (s : Option Str) : Option Str :=
  match s with
  | none => none
  | some t => some (joinWords (pyStrip (nfkc t)))

/-!
Date parsing (`cleanse.parse_date`).

`parse_date` first calls `pandas.to_datetime(s, utc=True, errors="raise",
dayfirst=False)` (the abstract `flex` argument below: `none` models an
exception) and, on failure, tries the fixed `DATE_FORMATS` list with
`datetime.strptime`.  The `strptime` models below follow CPython's
`_strptime` regexes for `%Y %m %d %H %M %S %y %z` and the `datetime`
constructor's range validation (a constructor `ValueError`, e.g. for
day 31 in April or leap-second values, is caught by the source and
treated as a failed format).
-/

/-- Calendar date (year, month, day). -/
structure Date where
  y : Nat
  m : Nat
  d : Nat
  deriving DecidableEq

/-- Leap-year test used by `datetime` range validation. -/
def isLeap (y : Nat) : Bool := y % 4 = 0 && (y % 100 ≠ 0 || y % 400 = 0)

/-- Length of a month, as validated by the `datetime` constructor. -/
def daysInMonth (y m : Nat) : Nat :=
  if m = 2 then (if isLeap y then 29 else 28)
  else if m = 4 ∨ m = 6 ∨ m = 9 ∨ m = 11 then 30
  else 31

/-- Dates the `datetime` constructor accepts. -/
def ValidDate (dt : Date) : Prop :=
  1 ≤ dt.y ∧ dt.y ≤ 9999 ∧ 1 ≤ dt.m ∧ dt.m ≤ 12 ∧ 1 ≤ dt.d ∧ dt.d ≤ daysInMonth dt.y dt.m

instance (dt : Date) : Decidable (ValidDate dt) := by
  unfold ValidDate; infer_instance

/-- Left-pad a digit string with zeros to a given width. -/
def padLeftZeros (k : Nat) (l : Str) : Str := List.replicate (k - l.length) '0' ++ l

/-- Model of `date.isoformat()`: `YYYY-MM-DD` with zero padding. -/
def isoDate (dt : Date) : Str :=
  padLeftZeros 4 (renderNat dt.y) ++ ('-' :: padLeftZeros 2 (renderNat dt.m))
    ++ ('-' :: padLeftZeros 2 (renderNat dt.d))

/-- Expect one literal character. -/
def litP (c : Char) : Str → Option Str
  | d :: rest => if d = c then some rest else none
  | [] => none

/-- CPython `strptime` field `%Y`: exactly four digits. -/
def year4P : Str → Option (Nat × Str)
  | a :: b :: c :: d :: rest =>
    if a.isDigit ∧ b.isDigit ∧ c.isDigit ∧ d.isDigit then
      some (natOfDigits [a, b, c, d], rest)
    else none
  | _ => none

/-- CPython `strptime` field `%y`: exactly two digits, mapped to
1969–2068 (`00-68` → 2000s, `69-99` → 1900s). -/
def year2P : Str → Option (Nat × Str)
  | a :: b :: rest =>
    if a.isDigit ∧ b.isDigit then
      let v := natOfDigits [a, b]
      some (if v ≤ 68 then 2000 + v else 1900 + v, rest)
    else none
  | _ => none

/-- CPython `strptime` field `%m`: regex `1[0-2]|0[1-9]|[1-9]`. -/
def monthP : Str → Option (Nat × Str)
  | a :: b :: rest =>
    if a = '1' ∧ '0' ≤ b ∧ b ≤ '2' then some (10 + dig b, rest)
    else if a = '0' ∧ '1' ≤ b ∧ b ≤ '9' then some (dig b, rest)
    else if '1' ≤ a ∧ a ≤ '9' then some (dig a, b :: rest)
    else none
  | [a] => if '1' ≤ a ∧ a ≤ '9' then some (dig a, []) else none
  | [] => none

/-- CPython `strptime` field `%d`: regex `3[01]|[12]\d|0[1-9]|[1-9]`. -/
def dayP : Str → Option (Nat × Str)
  | a :: b :: rest =>
    if a = '3' ∧ (b = '0' ∨ b = '1') then some (30 + dig b, rest)
    else if (a = '1' ∨ a = '2') ∧ b.isDigit then some (10 * dig a + dig b, rest)
    else if a = '0' ∧ '1' ≤ b ∧ b ≤ '9' then some (dig b, rest)
    else if '1' ≤ a ∧ a ≤ '9' then some (dig a, b :: rest)
    else none
  | [a] => if '1' ≤ a ∧ a ≤ '9' then some (dig a, []) else none
  | [] => none

/-- CPython `strptime` field `%H`: regex `2[0-3]|[0-1]\d|\d`. -/
def hourP : Str → Option (Nat × Str)
  | a :: b :: rest =>
    if a = '2' ∧ '0' ≤ b ∧ b ≤ '3' then some (20 + dig b, rest)
    else if (a = '0' ∨ a = '1') ∧ b.isDigit then some (10 * dig a + dig b, rest)
    else if a.isDigit then some (dig a, b :: rest)
    else none
  | [a] => if a.isDigit then some (dig a, []) else none
  | [] => none

/-- CPython `strptime` fields `%M`/`%S` numeric part: regex
`[0-5]\d|\d` (for `%S` also `6[01]`, which the `datetime` constructor
then rejects; both behaviours yield a failed format, so leap-second
matches are reported here and filtered by the caller). -/
def minsecP : Str → Option (Nat × Str)
  | a :: b :: rest =>
    if '0' ≤ a ∧ a ≤ '5' ∧ b.isDigit then some (10 * dig a + dig b, rest)
    else if a = '6' ∧ (b = '0' ∨ b = '1') then some (60 + dig b, rest)
    else if a.isDigit then some (dig a, b :: rest)
    else none
  | [a] => if a.isDigit then some (dig a, []) else none
  | [] => none

/-- Two mandatory digits (used inside the `%z` offset). -/
def twoDigP : Str → Option (Nat × Str)
  | a :: b :: rest => if a.isDigit ∧ b.isDigit then some (10 * dig a + dig b, rest) else none
  | _ => none

/-- Skip an optional colon (the `:?` pieces of the `%z` regex). -/
def optColon : Str → Str
  | ':' :: rest => rest
  | s => s

/-- Skip an optional fractional-seconds suffix `\.\d{1,6}` inside `%z`;
returns `none` when a `.` is present without one-to-six digits. -/
def optFrac : Str → Option (Nat × Str)
  | '.' :: rest =>
    let ds := rest.takeWhile Char.isDigit
    if 1 ≤ ds.length ∧ ds.length ≤ 6 then
      some (natOfDigits ds * 10 ^ (6 - ds.length), rest.drop ds.length)
    else none
  | s => some (0, s)

/-- CPython `strptime` field `%z`: `Z` or
`[+-]\d\d:?\d\d(:?\d\d(\.\d{1,6})?)?`, yielding the UTC offset in
microseconds.  Offsets of 24 hours or more make `timezone()` raise, so
they are rejected by the caller. -/
def offsetP : Str → Option (Int × Str)
  | 'Z' :: rest => some (0, rest)
  | c :: rest =>
    if c = '+' ∨ c = '-' then
      match twoDigP rest with
      | none => none
      | some (hh, r1) =>
        match twoDigP (optColon r1) with
        | none => none
        | some (mm, r2) =>
          let withSec : Option (Nat × Str) :=
            match r2 with
            | [] => some (0, [])
            | _ =>
              match twoDigP (optColon r2) with
              | none => none
              | some (ss, r3) =>
                match optFrac r3 with
                | none => none
                | some (fr, r4) => some (ss * 1000000 + fr, r4)
          match withSec with
          | none => none
          | some (secMicro, r) =>
            let total : Int := (hh * 3600 * 1000000 + mm * 60 * 1000000 : Nat) + secMicro
            some (if c = '-' then -total else total, r)
    else none
  | [] => none

/-- Following calendar day (defined on valid dates). -/
def nextDay (dt : Date) : Date :=
  if dt.d < daysInMonth dt.y dt.m then ⟨dt.y, dt.m, dt.d + 1⟩
  else if dt.m < 12 then ⟨dt.y, dt.m + 1, 1⟩
  else ⟨dt.y + 1, 1, 1⟩

/-- Previous calendar day (defined on valid dates). -/
def prevDay (dt : Date) : Date :=
  if 1 < dt.d then ⟨dt.y, dt.m, dt.d - 1⟩
  else if 1 < dt.m then ⟨dt.y, dt.m - 1, daysInMonth dt.y (dt.m - 1)⟩
  else ⟨dt.y - 1, 12, 31⟩

/-- Shared date part `%Y-%m-%d` of the first three formats. -/
def ymdPartP (s : Str) : Option (Date × Str) :=
  match year4P s with
  | none => none
  | some (y, r1) =>
    match litP '-' r1 with
    | none => none
    | some r2 =>
      match monthP r2 with
      | none => none
      | some (m, r3) =>
        match litP '-' r3 with
        | none => none
        | some r4 =>
          match dayP r4 with
          | none => none
          | some (d, r5) => some (⟨y, m, d⟩, r5)

/-- Time part `%H:%M:%S`, yielding microseconds since local midnight and
the leap-second validity flag for the `datetime` constructor. -/
def hmsPartP (s : Str) : Option (Int × Str) :=
  match hourP s with
  | none => none
  | some (hh, r1) =>
    match litP ':' r1 with
    | none => none
    | some r2 =>
      match minsecP r2 with
      | none => none
      | some (mm, r3) =>
        if 59 < mm then none
        else
          match litP ':' r3 with
          | none => none
          | some r4 =>
            match minsecP r4 with
            | none => none
            | some (ss, r5) =>
              if 59 < ss then none
              else some ((hh * 3600 + mm * 60 + ss : Nat) * 1000000, r5)

/-- Format `"%Y-%m-%d"`. -/
def pYmd (s : Str) : Option Date :=
  match ymdPartP s with
  | some (dt, []) => if ValidDate dt then some dt else none
  | _ => none

/-- Format `"%Y-%m-%dT%H:%M:%S%z"`, normalized to the UTC date
(`astimezone(timezone.utc).date()`); a resulting date outside the
`datetime` year range is an error and thus a failed format. -/
def pIsoTz (s : Str) : Option Date :=
  match ymdPartP s with
  | none => none
  | some (dt, r1) =>
    match litP 'T' r1 with
    | none => none
    | some r2 =>
      match hmsPartP r2 with
      | none => none
      | some (micro, r3) =>
        match offsetP r3 with
        | some (off, []) =>
          if ¬ValidDate dt then none
          else if (86400 * 1000000 : Int) ≤ off.natAbs then none
          else
            let t : Int := micro - off
            let dayMicro : Int := 86400 * 1000000
            let onDay : Date :=
              if t < 0 then prevDay dt else if dayMicro ≤ t then nextDay dt else dt
            if ValidDate onDay then some onDay else none
        | _ => none

/-- Format `"%Y-%m-%dT%H:%M:%S"` (offset-less values are taken as UTC,
so the date part is kept unchanged). -/
def pIsoNoTz (s : Str) : Option Date :=
  match ymdPartP s with
  | none => none
  | some (dt, r1) =>
    match litP 'T' r1 with
    | none => none
    | some r2 =>
      match hmsPartP r2 with
      | some (_, []) => if ValidDate dt then some dt else none
      | _ => none

/-- Format `"%m/%d/%Y"`. -/
def pMdY (s : Str) : Option Date :=
  match monthP s with
  | none => none
  | some (m, r1) =>
    match litP '/' r1 with
    | none => none
    | some r2 =>
      match dayP r2 with
      | none => none
      | some (d, r3) =>
        match litP '/' r3 with
        | none => none
        | some r4 =>
          match year4P r4 with
          | some (y, []) => if ValidDate ⟨y, m, d⟩ then some ⟨y, m, d⟩ else none
          | _ => none

/-- Format `"%d-%m-%Y"`. -/
def pDmY (s : Str) : Option Date :=
  match dayP s with
  | none => none
  | some (d, r1) =>
    match litP '-' r1 with
    | none => none
    | some r2 =>
      match monthP r2 with
      | none => none
      | some (m, r3) =>
        match litP '-' r3 with
        | none => none
        | some r4 =>
          match year4P r4 with
          | some (y, []) => if ValidDate ⟨y, m, d⟩ then some ⟨y, m, d⟩ else none
          | _ => none

/-- Format `"%m/%d/%y"`. -/
def pMdy2 (s : Str) : Option Date :=
  match monthP s with
  | none => none
  | some (m, r1) =>
    match litP '/' r1 with
    | none => none
    | some r2 =>
      match dayP r2 with
      | none => none
      | some (d, r3) =>
        match litP '/' r3 with
        | none => none
        | some r4 =>
          match year2P r4 with
          | some (y, []) => if ValidDate ⟨y, m, d⟩ then some ⟨y, m, d⟩ else none
          | _ => none

/-- Format `"%d/%m/%Y"`. -/
def pDMYslash (s : Str) : Option Date :=
  match dayP s with
  | none => none
  | some (d, r1) =>
    match litP '/' r1 with
    | none => none
    | some r2 =>
      match monthP r2 with
      | none => none
      | some (m, r3) =>
        match litP '/' r3 with
        | none => none
        | some r4 =>
          match year4P r4 with
          | some (y, []) => if ValidDate ⟨y, m, d⟩ then some ⟨y, m, d⟩ else none
          | _ => none

/-- The `DATE_FORMATS` fallback list, tried in order. -/
def tryFormats (s : Str) : Option Date :=
  match pYmd s with
  | some dt => some dt
  | none =>
    match pIsoTz s with
    | some dt => some dt
    | none =>
      match pIsoNoTz s with
      | some dt => some dt
      | none =>
        match pMdY s with
        | some dt => some dt
        | none =>
          match pDmY s with
          | some dt => some dt
          | none =>
            match pMdy2 s with
            | some dt => some dt
            | none => pDMYslash s

/-- Model of `cleanse.parse_date`: falsy input → `None`; strip; try the
flexible parser (`flex`); then the fixed format list; all results are
rendered with `date.isoformat()`. -/
def parse_date (flex : Str → Option Date) (s : Option Str) : Option Str :=
  match s with
  | none => none
  | some s0 =>
    if s0 = [] then none
    else
      let t := pyStrip s0
      match flex t with
      | some dt => some (isoDate dt)
      | none => (tryFormats t).map isoDate

/-!
Phone, quantity, currency and price parsers (`cleanse.py`).
-/

/-- The `COUNTRY_CODE` lookup table, in source order. -/
def COUNTRY_CODE : List (Str × Str) :=
  [("US".toList, "+1".toList), ("CA".toList, "+1".toList), ("GB".toList, "+44".toList),
   ("UK".toList, "+44".toList), ("FR".toList, "+33".toList), ("DE".toList, "+49".toList),
   ("ES".toList, "+34".toList), ("CN".toList, "+86".toList), ("JP".toList, "+81".toList),
   ("IN".toList, "+91".toList)]

/-- The `CURRENCY_SYMBOL` table, in source (insertion) order. -/
def CURRENCY_SYMBOL : List (Char × Str) :=
  [('$', "USD".toList), ('€', "EUR".toList), ('£', "GBP".toList),
   ('¥', "JPY".toList), ('元', "CNY".toList), ('円', "JPY".toList)]

/-- The `WORD_TO_INT` table. -/
def WORD_TO_INT : List (Str × Int) :=
  [("zero".toList, 0), ("one".toList, 1), ("two".toList, 2), ("three".toList, 3),
   ("four".toList, 4), ("five".toList, 5), ("six".toList, 6), ("seven".toList, 7),
   ("eight".toList, 8), ("nine".toList, 9), ("ten".toList, 10)]

/-- Model of `re.sub(r"[^\d+]", "", ·)`: keep digits and plus signs. -/
def keepDigitsPlus (s : Str) : Str := s.filter (fun c => c.isDigit || c = '+')

/-- Model of `re.sub(r"\D", "", ·)`: keep digits only. -/
def onlyDigits (s : Str) : Str := s.filter Char.isDigit

/-- Model of `cleanse.normalize_phone`.  Note the source's first
`re.sub` keeps every `+`, not only a leading one, and the
already-international branch returns that string unchanged. -/
def normalize_phone (phone_raw : Option Str) (country : Option Str) : Option Str :=
  if ¬pyTruthy phone_raw then none
  else
    let digits := keepDigitsPlus (pyGetStr phone_raw)
    if digits.head? = some '+' ∧ 8 ≤ (onlyDigits digits).length then some digits
    else
      let cc := COUNTRY_CODE.lookup (pyUpper (pyGetStr country))
      let national := onlyDigits digits
      match cc with
      | some code =>
        if national ≠ [] then some (code ++ national.dropWhile (fun c => c = '0'))
        else if onlyDigits digits = [] then none else some (onlyDigits digits)
      | none => if onlyDigits digits = [] then none else some (onlyDigits digits)

/-- Model of `re.fullmatch(r"-?\d+", ·)`. -/
def isIntLit (s : Str) : Bool :=
  match s with
  | '-' :: rest => !rest.isEmpty && rest.all Char.isDigit
  | _ => !s.isEmpty && s.all Char.isDigit

/-- Integer value of a `-?\d+` literal. -/
def intOfStr (s : Str) : Int :=
  match s with
  | '-' :: rest => -(natOfDigits rest : Int)
  | _ => (natOfDigits s : Int)

/-- Model of `cleanse.parse_quantity`. -/
def parse_quantity (q : Option Str) : Option Int :=
  match q with
  | none => none
  | some s =>
    if s = [] then none
    else
      let qn := pyLower (pyStrip s)
      match WORD_TO_INT.lookup qn with
      | some n => some n
      | none => if isIntLit qn then some (intOfStr qn) else none

/-- ASCII word character (`\w` of the source's regexes, ASCII-scoped). -/
def isWordChar (c : Char) : Bool := c.isAlphanum || c = '_'

/-- Uppercase ASCII letter (`[A-Z]` without `re.I`). -/
def isUpperAZ (c : Char) : Bool := 'A' ≤ c && c ≤ 'Z'

/-- ASCII letter (`[A-Z]` under `re.IGNORECASE`). -/
def isLetterAZ (c : Char) : Bool := ('A' ≤ c && c ≤ 'Z') || ('a' ≤ c && c ≤ 'z')

/-- Word boundary after a match: end of string or a non-word character. -/
def boundaryAfter (rest : Str) : Bool :=
  match rest with
  | [] => true
  | c :: _ => !isWordChar c

/-- Word boundary before a match: start of string or a preceding
non-word character. -/
def boundaryBefore (prev : Option Char) : Bool :=
  match prev with
  | none => true
  | some p => !isWordChar p

/-- Leftmost `re.search(r"\b([A-Z]{3})\b", ·)` match: scan with the
previous character as context. -/
def isoSearchAux (prev : Option Char) : Str → Option Str
  | c1 :: c2 :: c3 :: rest =>
    if boundaryBefore prev ∧ isUpperAZ c1 ∧ isUpperAZ c2 ∧ isUpperAZ c3
        ∧ boundaryAfter rest then
      some [c1, c2, c3]
    else isoSearchAux (some c1) (c2 :: c3 :: rest)
  | _ => none

/-- Model of `cleanse.detect_currency_from_text`: a `\b[A-Z]{3}\b`
token first, then the symbol table in insertion order. -/
def detect_currency_from_text (txt : Str) : Option Str :=
  if txt = [] then none
  else
    match isoSearchAux none txt with
    | some code => some code
    | none => (CURRENCY_SYMBOL.find? (fun p => p.1 ∈ txt)).map (fun p => p.2)

/-- Model of `re.sub(r"([A-Z]{3}|USD|...)", "", s, flags=re.I)`: the
first alternative already matches any three consecutive ASCII letters
case-insensitively, so the scan removes every such run, left to right. -/
def stripAlpha3RunsF : Nat → Str → Str
  | _, [] => []
  | 0, s => s
  | fuel + 1, a :: rest =>
    match rest with
    | b :: c :: rest2 =>
      if isLetterAZ a ∧ isLetterAZ b ∧ isLetterAZ c then stripAlpha3RunsF fuel rest2
      else a :: stripAlpha3RunsF fuel rest
    | _ => a :: rest

/-- The same scan with sufficient fuel. -/
def stripAlpha3Runs (s : Str) : Str := stripAlpha3RunsF s.length s

/-- Head match of `\d+,\d{2}\b` at one position: a digit, a comma,
exactly two digits and a word boundary. -/
def commaHeadMatch (c1 : Char) (rest : Str) : Bool :=
  match rest with
  | ',' :: a :: b :: rest2 => c1.isDigit && a.isDigit && b.isDigit && boundaryAfter rest2
  | _ => false

/-- Model of `re.search(r"\d+,\d{2}\b", ·)`: some position carries a
digit, a comma, exactly two digits and a word boundary. -/
def commaDecimalPattern : Str → Bool
  | [] => false
  | c1 :: rest => commaHeadMatch c1 rest || commaDecimalPattern rest

/-- Replace every comma by a period (`.replace(",", ".")`). -/
def mapComma (s : Str) : Str := s.map (fun c => if c = ',' then '.' else c)

/-- Decimal/comma normalization stage of `parse_price` (the
`if "," in s_no_cur and "." in s_no_cur` block). -/
def decimalNormalize (s : Str) : Str :=
  if ',' ∈ s ∧ '.' ∈ s then mapComma (s.filter (fun c => c ≠ '.'))
  else if commaDecimalPattern s then mapComma s
  else s.filter (fun c => c ≠ ',')

/-- Unsigned part of the Python `float(...)` model: digits with at
most one point and at least one digit; the value is exact (floats are
modelled as rationals). -/
def parseFloatPos (t : Str) : Option ℚ :=
  if t.count '.' ≤ 1 ∧ (t.filter (fun c => c ≠ '.')).all Char.isDigit
      ∧ t.filter (fun c => c ≠ '.') ≠ [] then
    some ((natOfDigits (t.filter (fun c => c ≠ '.')) : ℚ)
      / 10 ^ ((t.dropWhile (fun c => c ≠ '.')).length - 1))
  else none

/-- Model of Python `float(...)` on strings over digits, `.` and `-`
(the alphabet left after `re.sub(r"[^0-9.\-]", "", ·)`): an optional
leading minus then an unsigned decimal literal. -/
def parseFloat? (s : Str) : Option ℚ :=
  if s.head? = some '-' then (parseFloatPos (s.drop 1)).map (fun q => -q)
  else parseFloatPos s

/-- String pipeline of `parse_price` up to the final `float(...)` call:
strip, remove currency tokens and symbols, strip, normalize the
decimal separators, drop spaces and non-numeric junk. -/
def priceStr (value : Option Str) : Str :=
  let s := pyStrip (pyGetStr value)
  let s1 := stripAlpha3Runs s
  let s2 := CURRENCY_SYMBOL.foldl (fun t p => t.filter (fun c => c ≠ p.1)) s1
  let s3 := pyStrip s2
  let s4 := decimalNormalize s3
  (s4.filter (fun c => c ≠ ' ')).filter (fun c => c.isDigit || c = '.' || c = '-')

/-- Currency component of `parse_price`: the upper-cased explicit
column if truthy, else detection on the stripped price text, else
detection on the raw value. -/
def priceCurrency (value currency_col : Option Str) : Option Str :=
  let cur := pyOrS (some (pyUpper (pyStrip (pyGetStr currency_col))))
    (detect_currency_from_text (pyStrip (pyGetStr value)))
  pyOrS cur (detect_currency_from_text (pyGetStr value))

/-- Model of `cleanse.parse_price`. -/
def parse_price (value currency_col : Option Str) : Option ℚ × Option Str :=
  if ¬pyTruthy value ∧ ¬pyTruthy currency_col then (none, none)
  else (parseFloat? (priceStr value), priceCurrency value currency_col)

/-!
The data model: raw rows (the twenty columns `canonicalize_row` reads),
canonical records, and the bundle of external collaborators.
-/

/-- Raw row: every value is an optional string (absent models both a
missing key and a `None` produced by the sentinel replacement of the
row source). -/
structure RawRow where
  order_id : Option Str := none
  customer_id : Option Str := none
  customer_name : Option Str := none
  email : Option Str := none
  phone : Option Str := none
  country : Option Str := none
  state : Option Str := none
  city : Option Str := none
  address : Option Str := none
  postal_code : Option Str := none
  order_date : Option Str := none
  ship_date : Option Str := none
  ship_mode : Option Str := none
  item_sku : Option Str := none
  item_name : Option Str := none
  quantity : Option Str := none
  unit_price : Option Str := none
  currency : Option Str := none
  discount_code : Option Str := none
  order_notes : Option Str := none
  deriving DecidableEq

/-- Canonical record produced by `canonicalize_row` (dates are stored
as ISO strings, exactly as the source keeps `isoformat()` output). -/
structure Canon where
  order_id : Option Int
  customer_id : Option Str
  customer_name : Option Str
  email : Option Str
  phone : Option Str
  country : Option Str
  state : Option Str
  city : Option Str
  address : Option Str
  postal_code : Option Str
  order_date : Option Str
  ship_date : Option Str
  ship_mode : Option Str
  item_sku : Option Str
  item_name : Option Str
  quantity : Option Int
  unit_price : Option ℚ
  currency : Option Str
  discount_code : Option Str
  order_notes : Option Str
  deriving DecidableEq

/-- External collaborators: NFKC normalization, the flexible date
interpreter, the JSON row serializer and the ingestion timestamp. -/
structure Env where
  nfkc : Str → Str
  flex : Str → Option Date
  serialize : RawRow → Str
  now : Str

/-- Lexicographic string comparison (Python `str < str` by code point). -/
def strLt : Str → Str → Bool
  | [], [] => false
  | [], _ :: _ => true
  | _ :: _, [] => false
  | a :: as_, b :: bs => a < b || (a = b && strLt as_ bs)

/-- Model of `re.match(r"^[^@\s]+@[^@\s]+\.[^@\s]+$", ·, re.I)`:
exactly one `@`, a nonempty whitespace-free local part, and after the
`@` a whitespace-free part with an interior `.` (`$` is modelled as
end-of-string). -/
def emailOk (s : Str) : Bool :=
  let l := s.takeWhile (fun c => c ≠ '@')
  let r := (s.dropWhile (fun c => c ≠ '@')).drop 1
  s.count '@' = 1 && l ≠ [] && l.all (fun c => !c.isWhitespace)
    && r.all (fun c => !c.isWhitespace) && '.' ∈ (r.drop 1).dropLast

/-- Model of `cleanse.validate_row_canonical`: the ten business rules,
appended in source order with the verbatim reason strings. -/
def validate_row_canonical (row : Canon) : List Str :=
  (if row.order_id = none then ["missing order_id".toList] else [])
  ++ (if ¬pyTruthy row.order_date then ["invalid order_date".toList] else [])
  ++ (if pyTruthy row.ship_date ∧ pyTruthy row.order_date
        ∧ strLt (pyGetStr row.ship_date) (pyGetStr row.order_date) then
        ["ship_date earlier than order_date".toList] else [])
  ++ (match row.quantity with
      | none => ["invalid quantity".toList]
      | some q => if q < 0 then ["negative quantity".toList] else [])
  ++ (match row.unit_price with
      | none => ["invalid unit_price".toList]
      | some p => if p < 0 then ["negative unit_price".toList] else [])
  ++ (if ¬pyTruthy row.currency then ["missing currency".toList] else [])
  ++ (if ¬pyTruthy row.item_sku then ["missing item_sku".toList] else [])
  ++ (if pyTruthy row.email ∧ ¬emailOk (pyGetStr row.email) then
        ["invalid email".toList] else [])
  ++ (if row.email = none ∧ row.phone = none ∧ row.address = none then
        ["Contact info Missing".toList] else [])
  ++ (if row.customer_id = none ∧ row.customer_name = none then
        ["Customer info Missing".toList] else [])

/-- The `N` shortcut of `canonicalize_row`:
`normalize_text(x) if x not in (None, "") else None`. -/
def canonN (ext : Env) (x : Option Str) : Option Str :=
  match x with
  | none => none
  | some s => if s = [] then none else normalize_text ext.nfkc (some s)

/-- Numeric extraction for `order_id`: strip non-digits, parse, `None`
on absent/empty/no-digit input (an `int("")` error is caught). -/
def canonOrderId (raw : RawRow) : Option Int :=
  if pyTruthy raw.order_id then
    (let ds := onlyDigits (pyGetStr raw.order_id)
     if ds = [] then none else some (natOfDigits ds : Int))
  else none

/-- Model of `cleanse.canonicalize_row`. -/
def canonicalize_row (ext : Env) (raw : RawRow) : Canon :=
  let pc := parse_price raw.unit_price raw.currency
  let countryUp := pyUpper (pyGetStr raw.country)
  { order_id := canonOrderId raw
    customer_id := canonN ext raw.customer_id
    customer_name := canonN ext raw.customer_name
    email := canonN ext raw.email
    phone := normalize_phone raw.phone raw.country
    country := if countryUp = [] then none else some countryUp
    state := canonN ext raw.state
    city := canonN ext raw.city
    address := canonN ext raw.address
    postal_code := canonN ext raw.postal_code
    order_date := parse_date ext.flex raw.order_date
    ship_date := parse_date ext.flex raw.ship_date
    ship_mode := canonN ext raw.ship_mode
    item_sku := canonN ext raw.item_sku
    item_name := canonN ext raw.item_name
    quantity := parse_quantity raw.quantity
    unit_price := pc.1
    currency := pc.2
    discount_code := canonN ext raw.discount_code
    order_notes := canonN ext raw.order_notes }

/-!
Batch orchestration (`main.process_dataframe`).
-/

/-- Rejected-row record: `(order_id, item_sku, joined reasons,
serialized raw row, ingestion timestamp)`. -/
abbrev BadRow := Option Str × Option Str × Str × Str × Str

/-- Model of `DataFrame.drop_duplicates()`: keep the first occurrence
of each fully identical row, preserving order. -/
def dedupAux (seen : List RawRow) : List RawRow → List RawRow
  | [] => []
  | r :: rest => if r ∈ seen then dedupAux seen rest else r :: dedupAux (r :: seen) rest

/-- Exact-duplicate removal over a batch. -/
def dedupKeepFirst (df : List RawRow) : List RawRow := dedupAux [] df

/-- The raw `(order_id, item_sku)` grouping key (`dropna=False`: absent
values compare equal). -/
def keyOf (r : RawRow) : Option Str × Option Str := (r.order_id, r.item_sku)

/-- Keys owned by more than one post-dedup row (`conflict_keys`). -/
def isConflictKey (dd : List RawRow) (k : Option Str × Option Str) : Bool :=
  1 < dd.countP (fun r => decide (keyOf r = k))

/-- Verbatim conflict reason appended by the orchestrator. -/
def conflictReason : Str := "conflicting duplicate key (order_id, item_sku)".toList

/-- Model of `"; ".join(errs)`. -/
def joinSemic : List Str → Str
  | [] => []
  | [e] => e
  | e :: rest => e ++ ("; ".toList) ++ joinSemic rest

/-- Per-row step of the orchestrator loop: canonicalize, validate,
append the conflict reason when the raw key is shared, and route to
the clean or the rejected stream. -/
def processRow (ext : Env) (dd : List RawRow) (r : RawRow) : Canon ⊕ BadRow :=
  let canon := canonicalize_row ext r
  let errs0 := validate_row_canonical canon
  let errs := if isConflictKey dd (keyOf r) then errs0 ++ [conflictReason] else errs0
  if errs = [] then Sum.inl canon
  else Sum.inr (r.order_id, r.item_sku, joinSemic errs, ext.serialize r, ext.now)

/-- Model of `main.process_dataframe`: returns
`(clean_rows, bad_rows, dropped_exact_dupes_count, conflicting_dupes_count)`. -/
def process_dataframe (ext : Env) (df : List RawRow) :
    List Canon × List BadRow × Nat × Nat :=
  let dd := dedupKeepFirst df
  let outs := dd.map (processRow ext dd)
  (outs.filterMap (fun o => o.getLeft?), outs.filterMap (fun o => o.getRight?),
   df.length - dd.length, dd.countP (fun r => isConflictKey dd (keyOf r)))

/-!
Specification-side definitions.  Each follows the spec's (or a claim's)
wording and is compared with the corresponding source-derived model in
the claim theorems.
-/

/-- Spec wording of the validator (§4.3): an ordered rule table,
filtered by applicability, every applicable rule reported. -/
def ruleTable (row : Canon) : List (Bool × Str) :=
  [(decide (row.order_id = none), "missing order_id".toList),
   (decide (row.order_date = none), "invalid order_date".toList),
   (decide (row.ship_date ≠ none ∧ row.order_date ≠ none
      ∧ strLt (pyGetStr row.ship_date) (pyGetStr row.order_date) = true),
    "ship_date earlier than order_date".toList),
   (decide (row.quantity = none), "invalid quantity".toList),
   (decide (∃ q, row.quantity = some q ∧ q < 0), "negative quantity".toList),
   (decide (row.unit_price = none), "invalid unit_price".toList),
   (decide (∃ p, row.unit_price = some p ∧ p < 0), "negative unit_price".toList),
   (decide (¬pyTruthy row.currency = true), "missing currency".toList),
   (decide (¬pyTruthy row.item_sku = true), "missing item_sku".toList),
   (decide (∃ e, row.email = some e ∧ ¬emailOk e = true), "invalid email".toList),
   (decide (row.email = none ∧ row.phone = none ∧ row.address = none),
    "Contact info Missing".toList),
   (decide (row.customer_id = none ∧ row.customer_name = none),
    "Customer info Missing".toList)]

/-- Spec-worded validator: all applicable reasons, in rule order,
verbatim, with no short-circuiting. -/
def validatorSpec (row : Canon) : List Str :=
  ((ruleTable row).filter (fun p => p.1)).map (fun p => p.2)

/-- Optional-string character access for index-based regex conditions. -/
def charAt (s : Str) (i : Nat) : Option Char := s.get? i

/-- Index form of `\d` at a position. -/
def digitAt (s : Str) (i : Nat) : Bool :=
  match charAt s i with
  | some c => c.isDigit
  | none => false

/-- Index form of a word boundary at a position: past the end or a
non-word character. -/
def boundaryIdx (s : Str) (i : Nat) : Bool :=
  match charAt s i with
  | none => true
  | some c => !isWordChar c

/-- Claim C2's literal comma condition: some comma is followed by
exactly two digits at a word boundary (no digit required before it). -/
def commaTwoDigitsClaim (s : Str) : Bool :=
  (List.range s.length).any (fun i =>
    decide (charAt s i = some ',') && digitAt s (i + 1) && digitAt s (i + 2)
      && boundaryIdx s (i + 3))

/-- Decimal normalization as claim C2 literally states it. -/
def decimalNormalizeClaim (s : Str) : Str :=
  if ',' ∈ s ∧ '.' ∈ s then mapComma (s.filter (fun c => c ≠ '.'))
  else if ',' ∈ s ∧ commaTwoDigitsClaim s then mapComma s
  else s.filter (fun c => c ≠ ',')

/-- Amended comma condition: a digit, then the comma, then exactly two
digits at a word boundary (this is what `\d+,\d{2}\b` requires). -/
def commaDecimalSpecCond (s : Str) : Bool :=
  (List.range s.length).any (fun i =>
    digitAt s i && decide (charAt s (i + 1) = some ',') && digitAt s (i + 2)
      && digitAt s (i + 3) && boundaryIdx s (i + 4))

/-- Decimal normalization as amended: the comma-decimal case also needs
a digit immediately before the comma. -/
def decimalNormalizeSpec (s : Str) : Str :=
  if ',' ∈ s ∧ '.' ∈ s then mapComma (s.filter (fun c => c ≠ '.'))
  else if ',' ∈ s ∧ commaDecimalSpecCond s then mapComma s
  else s.filter (fun c => c ≠ ',')

/-- Claim C6's literal stripping: keep digits and a leading plus only. -/
def stripPhoneClaim (p : Str) : Str :=
  match p with
  | '+' :: rest => '+' :: onlyDigits rest
  | _ => onlyDigits p

/-- Phone normalizer as claim C6 literally states it (the stripped
result keeps only a leading plus before the international check). -/
def normalize_phone_claim (phone_raw country : Option Str) : Option Str :=
  if ¬pyTruthy phone_raw then none
  else
    let stripped := stripPhoneClaim (pyGetStr phone_raw)
    if stripped.head? = some '+' ∧ 8 ≤ (onlyDigits stripped).length then some stripped
    else
      match COUNTRY_CODE.lookup (pyUpper (pyGetStr country)), onlyDigits stripped with
      | some code, _ :: _ =>
        some (code ++ (onlyDigits stripped).dropWhile (fun c => c = '0'))
      | _, [] => none
      | _, ds => some ds

/-- Phone normalizer as amended: every plus sign is kept by the first
stripping; the already-international branch returns that string as-is;
otherwise the bare digit string of the input is used. -/
def normalize_phone_spec (phone_raw country : Option Str) : Option Str :=
  match phone_raw with
  | none => none
  | some p =>
    if p.isEmpty then none
    else
      let kept := p.filter (fun c => c.isDigit || c = '+')
      let ds := onlyDigits p
      if kept.head? = some '+' ∧ 8 ≤ ds.length then some kept
      else
        match COUNTRY_CODE.lookup (pyUpper (pyGetStr country)), ds with
        | some code, _ :: _ => some (code ++ ds.dropWhile (fun c => c = '0'))
        | _, [] => none
        | _, _ => some ds

/-!
Rendering a canonical record back to raw strings (claim C8), and the
side conditions under which re-canonicalization is the identity.
-/

/-- Decimal rendering of a rational whose reduced denominator divides a
power of ten (every value `parse_price` produces): sign, integer part,
point, and exactly `q.den` fractional digits. -/
def renderPrice (q : ℚ) : Str :=
  let k := q.den
  let n0 : Nat := q.num.natAbs * 10 ^ k / q.den
  (if q < 0 then ['-'] else []) ++ renderNat (n0 / 10 ^ k)
    ++ ('.' :: padLeftZeros k (renderNat (n0 % 10 ^ k)))

/-- Render every canonical field back to a raw string, absent on null
(claim C8's re-feeding step). -/
def renderCanon (c : Canon) : RawRow :=
  { order_id := c.order_id.map renderInt
    customer_id := c.customer_id
    customer_name := c.customer_name
    email := c.email
    phone := c.phone
    country := c.country
    state := c.state
    city := c.city
    address := c.address
    postal_code := c.postal_code
    order_date := c.order_date
    ship_date := c.ship_date
    ship_mode := c.ship_mode
    item_sku := c.item_sku
    item_name := c.item_name
    quantity := c.quantity.map renderInt
    unit_price := c.unit_price.map renderPrice
    currency := c.currency
    discount_code := c.discount_code
    order_notes := c.order_notes }

/-- Phone values that survive re-normalization: absent, or already
international with at least eight digits, or a bare digit string whose
country has no calling code. -/
def phoneRefeedOK (c : Canon) : Bool :=
  match c.phone with
  | none => true
  | some p =>
    (decide (p.head? = some '+') && decide (8 ≤ (onlyDigits p).length))
      || (decide (p.head? ≠ some '+')
          && (COUNTRY_CODE.lookup (pyUpper (pyGetStr c.country))).isNone)

/-- No normalized text field is the empty string (the data-model
invariant; `canonicalize_row` can violate it on all-whitespace input,
which is why claim C8 needs it as a side condition). -/
def noEmptyStrFields (c : Canon) : Bool :=
  decide (c.customer_id ≠ some []) && decide (c.customer_name ≠ some [])
    && decide (c.email ≠ some []) && decide (c.state ≠ some [])
    && decide (c.city ≠ some []) && decide (c.address ≠ some [])
    && decide (c.postal_code ≠ some []) && decide (c.ship_mode ≠ some [])
    && decide (c.item_sku ≠ some []) && decide (c.item_name ≠ some [])
    && decide (c.discount_code ≠ some []) && decide (c.order_notes ≠ some [])

/-!
Concrete instantiations used by witnesses and counterexamples.
-/

/-- Flexible date parser that always fails (every `pd.to_datetime` call
raises); `parse_date` then exercises only the fixed format list. -/
def noFlex : Str → Option Date := fun _ => none

/-- Concrete external collaborators: identity NFKC (exact on ASCII),
failing flexible parser, trivial serializer and timestamp. -/
def env0 : Env := ⟨id, noFlex, fun _ => [], []⟩

/-- Section-8 batch, row with a unique key. -/
def sampleRow1 : RawRow :=
  { order_id := some ("1".toList), item_sku := some ("B".toList) }

/-- Section-8 batch, first row of the conflicting pair (price 10). -/
def sampleRow2 : RawRow :=
  { order_id := some ("7".toList), item_sku := some ("A".toList),
    unit_price := some ("10".toList) }

/-- Section-8 batch, second row of the conflicting pair (price 20). -/
def sampleRow3 : RawRow :=
  { order_id := some ("7".toList), item_sku := some ("A".toList),
    unit_price := some ("20".toList) }

/-- Section-8 batch: two fully identical rows plus two rows sharing
key `(7, "A")` with differing prices. -/
def sampleBatch : List RawRow := [sampleRow1, sampleRow1, sampleRow2, sampleRow3]

/-- Raw row whose country is a full country name (claim C9). -/
def rawFrance : RawRow := { country := some ("France".toList) }

/-- Raw row whose phone re-normalization is not idempotent (claim C8):
country `US` has a calling code, so `"12345"` becomes `"+112345"`,
which on re-feeding becomes `"+1112345"`. -/
def rawPhoneCex : RawRow :=
  { phone := some ("12345".toList), country := some ("US".toList) }

/-- Fully populated raw row used as the claim C8 witness input. -/
def rawGood : RawRow :=
  { order_id := some ("17".toList), customer_id := some ("C1".toList),
    customer_name := some ("Ann B".toList), email := some ("ann@example.com".toList),
    phone := some ("+12345678901".toList), country := some ("US".toList),
    state := some ("CA".toList), city := some ("SF".toList),
    address := some ("1 Main St".toList), postal_code := some ("94105".toList),
    order_date := some ("2020-03-04".toList), ship_date := some ("2020-03-05".toList),
    ship_mode := some ("air".toList), item_sku := some ("K-9".toList),
    item_name := some ("widget".toList), quantity := some ("3".toList),
    unit_price := some ("10.50".toList), currency := some ("USD".toList),
    discount_code := some ("D1".toList), order_notes := some ("ok".toList) }

/-- Canonical record with no contact information (claim C4 witness). -/
def canonNoContact : Canon :=
  { order_id := some 1, customer_id := some ("C1".toList), customer_name := none,
    email := none, phone := none, country := none, state := none, city := none,
    address := none, postal_code := none, order_date := some ("2020-01-02".toList),
    ship_date := none, ship_mode := none, item_sku := some ("S".toList),
    item_name := none, quantity := some 1, unit_price := some 1,
    currency := some ("USD".toList), discount_code := none, order_notes := none }

/-!
Helper lemmas about the float model.
-/

theorem ne_of_isDigit {c x : Char} (h : c.isDigit = true) (hx : x.isDigit = false) :
    c ≠ x := by
  intro h'
  subst h'
  rw [h] at hx
  cases hx

theorem count_dot_digits {a : Str} (ha : a.all Char.isDigit = true) :
    a.count '.' = 0 := by
  rw [List.count_eq_zero]
  intro hm
  have hd := List.all_eq_true.mp ha _ hm
  exact ne_of_isDigit hd (by decide) rfl

theorem filter_ne_dot_digits {a : Str} (ha : a.all Char.isDigit = true) :
    a.filter (fun c => c ≠ '.') = a := by
  rw [List.filter_eq_self]
  intro c hc
  have hd := List.all_eq_true.mp ha _ hc
  simpa using ne_of_isDigit hd (by decide)

theorem dropWhile_to_dot {a : Str} (b : Str) (ha : a.all Char.isDigit = true) :
    (a ++ '.' :: b).dropWhile (fun c => c ≠ '.') = '.' :: b := by
  induction a with
  | nil => simp [List.dropWhile]
  | cons c a ih =>
    simp only [List.all_cons, Bool.and_eq_true] at ha
    simp only [List.cons_append, List.dropWhile_cons]
    rw [if_pos (by simpa using ne_of_isDigit ha.1 (by decide))]
    exact ih ha.2

theorem dropWhile_no_dot {a : Str} (ha : a.all Char.isDigit = true) :
    a.dropWhile (fun c => c ≠ '.') = [] := by
  induction a with
  | nil => rfl
  | cons c a ih =>
    simp only [List.all_cons, Bool.and_eq_true] at ha
    simp only [List.dropWhile_cons]
    rw [if_pos (by simpa using ne_of_isDigit ha.1 (by decide))]
    exact ih ha.2

/-- Evaluation of the unsigned float model on `digits.digits` strings. -/
theorem parseFloatPos_intFrac (a b : Str) (ha : a.all Char.isDigit = true)
    (hb : b.all Char.isDigit = true) (hne : a ++ b ≠ []) :
    parseFloatPos (a ++ '.' :: b) = some ((natOfDigits (a ++ b) : ℚ) / 10 ^ b.length) := by
  have hfilter : (a ++ '.' :: b).filter (fun c => c ≠ '.') = a ++ b := by
    rw [List.filter_append, filter_ne_dot_digits ha]
    congr 1
    rw [List.filter_cons, if_neg (by decide)]
    exact filter_ne_dot_digits hb
  have hcount : (a ++ '.' :: b).count '.' = 1 := by
    rw [List.count_append, List.count_cons_self, count_dot_digits ha, count_dot_digits hb]
  unfold parseFloatPos
  rw [if_pos]
  · rw [hfilter, dropWhile_to_dot b ha]
    simp
  · refine ⟨by rw [hcount], ?_, ?_⟩
    · rw [hfilter]
      simp only [List.all_append, Bool.and_eq_true]
      exact ⟨ha, hb⟩
    · rw [hfilter]
      exact hne

/-- Evaluation of the unsigned float model on pure digit strings. -/
theorem parseFloatPos_digits (a : Str) (ha : a.all Char.isDigit = true) (hne : a ≠ []) :
    parseFloatPos a = some ((natOfDigits a : ℚ)) := by
  unfold parseFloatPos
  rw [if_pos]
  · rw [filter_ne_dot_digits ha, dropWhile_no_dot ha]
    simp
  · rw [filter_ne_dot_digits ha]
    exact ⟨by rw [count_dot_digits ha]; exact Nat.zero_le 1, ha, hne⟩

/-- The float model ignores a sign when there is none. -/
theorem parseFloat?_of_head_ne {s : Str} (h : s.head? ≠ some '-') :
    parseFloat? s = parseFloatPos s := by
  unfold parseFloat?
  rw [if_neg h]

/-- The float model on a leading minus sign. -/
theorem parseFloat?_dash (s : Str) :
    parseFloat? ('-' :: s) = (parseFloatPos s).map (fun q => -q) := by
  unfold parseFloat?
  rw [if_pos (show ('-' :: s).head? = some '-' by rfl)]
  rfl

/-- Head of a digit string prefixed to anything starting with a digit
or a dot is never a dash. -/
theorem head_ne_dash_intFrac {a : Str} (b : Str) (ha : a.all Char.isDigit = true) :
    (a ++ '.' :: b).head? ≠ some '-' := by
  cases a with
  | nil => simp
  | cons c a =>
    simp only [List.all_cons, Bool.and_eq_true] at ha
    simpa using ne_of_isDigit ha.1 (by decide)

/-- Head of a nonempty digit string is never a dash. -/
theorem head_ne_dash_digits {a : Str} (ha : a.all Char.isDigit = true) :
    a.head? ≠ some '-' := by
  cases a with
  | nil => simp
  | cons c a =>
    simp only [List.all_cons, Bool.and_eq_true] at ha
    simpa using ne_of_isDigit ha.1 (by decide)

/-!
Claim theorems.
-/

/-- C1 (counterexample): `parse_price("$1,234.56", None)` does not
return `(1234.56, "USD")`: both `,` and `.` occur in the stripped
text, so the European branch removes the `.` and turns the `,` into
the decimal point, giving `1.23456`. -/
theorem claim1_counterexample :
    parse_price (some ("$1,234.56".toList)) none
        = (some ((123456 : ℚ) / 100000), some ("USD".toList))
      ∧ parse_price (some ("$1,234.56".toList)) none
        ≠ (some ((123456 : ℚ) / 100), some ("USD".toList)) := by
  have h0 : (¬pyTruthy (some ("$1,234.56".toList)) = true
      ∧ ¬pyTruthy (none : Option Str) = true) = False := by
    simp [pyTruthy]
  have h1 : priceStr (some ("$1,234.56".toList)) = ['1'] ++ '.' :: ("23456".toList) := by
    decide
  have h2 : priceCurrency (some ("$1,234.56".toList)) none = some ("USD".toList) := by
    decide
  have h4 : natOfDigits (['1'] ++ "23456".toList) = 123456 := by decide
  have h3 : parseFloat? (['1'] ++ '.' :: ("23456".toList))
      = some ((123456 : ℚ) / 100000) := by
    rw [parseFloat?_of_head_ne (head_ne_dash_intFrac _ (by decide)),
      parseFloatPos_intFrac ['1'] ("23456".toList) (by decide) (by decide) (by decide), h4]
    norm_num
  constructor
  · simp only [parse_price, h0, if_false, h1, h2, h3]
  · simp only [parse_price, h0, if_false, h1, h2, h3]
    intro hcontra
    have heq : ((123456 : ℚ) / 100000) = ((123456 : ℚ) / 100) := by
      have := congrArg Prod.fst hcontra
      simpa using this
    norm_num at heq

/-- C1 (amended): `parse_price` applied to `"$1,234.56"` with an absent
currency hint returns the amount `1.23456` (both separators occur, so
the European rule removes `.` and converts `,` to the decimal point)
paired with currency `"USD"`. -/
theorem claim1_amended_eval :
    parse_price (some ("$1,234.56".toList)) none
      = (some ((123456 : ℚ) / 100000), some ("USD".toList)) := by
  have h0 : (¬pyTruthy (some ("$1,234.56".toList)) = true
      ∧ ¬pyTruthy (none : Option Str) = true) = False := by
    simp [pyTruthy]
  have h1 : priceStr (some ("$1,234.56".toList)) = ['1'] ++ '.' :: ("23456".toList) := by
    decide
  have h2 : priceCurrency (some ("$1,234.56".toList)) none = some ("USD".toList) := by
    decide
  have h4 : natOfDigits (['1'] ++ "23456".toList) = 123456 := by decide
  have h3 : parseFloat? (['1'] ++ '.' :: ("23456".toList))
      = some ((123456 : ℚ) / 100000) := by
    rw [parseFloat?_of_head_ne (head_ne_dash_intFrac _ (by decide)),
      parseFloatPos_intFrac ['1'] ("23456".toList) (by decide) (by decide) (by decide), h4]
    norm_num
  simp only [parse_price, h0, if_false, h1, h2, h3]

/-!
Claim C2: the comma/period disambiguation rules.
-/

/-- The scanning regex model agrees with the positional condition:
somewhere a digit, a comma, two digits, and a word boundary. -/
theorem commaPattern_eq_specCond (s : Str) :
    commaDecimalPattern s = commaDecimalSpecCond s := by
  induction s with
  | nil => rfl
  | cons c rest ih =>
    unfold commaDecimalSpecCond at ih ⊢
    rw [commaDecimalPattern, List.length_cons, List.range_succ_eq_map,
      List.any_cons, List.any_map]
    have h0 : (digitAt (c :: rest) 0
        && decide (charAt (c :: rest) (0 + 1) = some ',') && digitAt (c :: rest) (0 + 2)
        && digitAt (c :: rest) (0 + 3) && boundaryIdx (c :: rest) (0 + 4))
        = commaHeadMatch c rest := by
      cases rest with
      | nil => simp [commaHeadMatch, digitAt, charAt, boundaryIdx]
      | cons x r1 =>
        by_cases hx : x = ','
        · subst hx
          cases r1 with
          | nil => simp [commaHeadMatch, digitAt, charAt, boundaryIdx]
          | cons a r2 =>
            cases r2 with
            | nil => simp [commaHeadMatch, digitAt, charAt, boundaryIdx]
            | cons b r3 =>
              cases r3 with
              | nil =>
                simp [commaHeadMatch, digitAt, charAt, boundaryIdx, boundaryAfter]
              | cons d r4 =>
                simp [commaHeadMatch, digitAt, charAt, boundaryIdx, boundaryAfter]
        · have : commaHeadMatch c (x :: r1) = false := by
            unfold commaHeadMatch
            cases r1 with
            | nil =>
              cases hh : x :: ([] : Str) with
              | nil => rfl
              | cons y t => simp_all [commaHeadMatch]
            | cons a r2 => simp_all [commaHeadMatch]
          rw [this]
          simp [digitAt, charAt, hx]
    rw [h0]
    congr 1

/-- A successful comma-decimal match implies a comma occurs. -/
theorem commaPattern_mem {s : Str} (h : commaDecimalPattern s = true) : ',' ∈ s := by
  induction s with
  | nil => cases h
  | cons c rest ih =>
    rw [commaDecimalPattern, Bool.or_eq_true] at h
    rcases h with h | h
    · unfold commaHeadMatch at h
      split at h
      · exact List.mem_cons_of_mem _ (List.mem_cons_self _ _)
      · cases h
    · exact List.mem_cons_of_mem _ (ih h)

/-- C2 (theorem, amended): the decimal-separator stage behaves as
specified once the comma-decimal case also requires a digit before the
comma; and the two worked examples of the claim hold. -/
theorem claim2_amended :
    (∀ s : Str, decimalNormalize s = decimalNormalizeSpec s)
    ∧ parse_price (some ("1.234,56".toList)) none = (some ((123456 : ℚ) / 100), none)
    ∧ parse_price (some ("149,99".toList)) (some ("EUR".toList))
      = (some ((14999 : ℚ) / 100), some ("EUR".toList)) := by
  refine ⟨?_, ?_, ?_⟩
  · intro s
    unfold decimalNormalize decimalNormalizeSpec
    by_cases h1 : ',' ∈ s ∧ '.' ∈ s
    · rw [if_pos h1, if_pos h1]
    · rw [if_neg h1, if_neg h1]
      by_cases h2 : commaDecimalPattern s = true
      · rw [if_pos h2, if_pos ⟨commaPattern_mem h2, by rw [← commaPattern_eq_specCond]; exact h2⟩]
      · rw [if_neg h2, if_neg ?_]
        intro hc
        exact h2 (by rw [commaPattern_eq_specCond]; exact hc.2)
  · have h0 : (¬pyTruthy (some ("1.234,56".toList)) = true
        ∧ ¬pyTruthy (none : Option Str) = true) = False := by
      simp [pyTruthy]
    have h1 : priceStr (some ("1.234,56".toList)) = ("1234".toList) ++ '.' :: ("56".toList) := by
      decide
    have h2 : priceCurrency (some ("1.234,56".toList)) none = none := by decide
    have h4 : natOfDigits ("1234".toList ++ "56".toList) = 123456 := by decide
    have h3 : parseFloat? (("1234".toList) ++ '.' :: ("56".toList))
        = some ((123456 : ℚ) / 100) := by
      rw [parseFloat?_of_head_ne (head_ne_dash_intFrac _ (by decide)),
        parseFloatPos_intFrac ("1234".toList) ("56".toList) (by decide) (by decide) (by decide),
        h4]
      norm_num
    simp only [parse_price, h0, if_false, h1, h2, h3]
  · have h0 : (¬pyTruthy (some ("149,99".toList)) = true
        ∧ ¬pyTruthy (some ("EUR".toList)) = true) = False := by
      simp [pyTruthy]
    have h1 : priceStr (some ("149,99".toList)) = ("149".toList) ++ '.' :: ("99".toList) := by
      decide
    have h2 : priceCurrency (some ("149,99".toList)) (some ("EUR".toList))
        = some ("EUR".toList) := by decide
    have h4 : natOfDigits ("149".toList ++ "99".toList) = 14999 := by decide
    have h3 : parseFloat? (("149".toList) ++ '.' :: ("99".toList))
        = some ((14999 : ℚ) / 100) := by
      rw [parseFloat?_of_head_ne (head_ne_dash_intFrac _ (by decide)),
        parseFloatPos_intFrac ("149".toList) ("99".toList) (by decide) (by decide) (by decide),
        h4]
      norm_num
    simp only [parse_price, h0, if_false, h1, h2, h3]

/-- C2 (counterexample): on `",99"` the claim's rule (a comma followed
by exactly two digits at a boundary is the decimal separator) yields
`".99"`, i.e. `0.99`, but the source regex `\d+,\d{2}\b` also demands
a digit before the comma, so the comma is removed and the price is
`99`. -/
theorem claim2_counterexample :
    parse_price (some (",99".toList)) none = (some ((99 : ℚ)), none)
    ∧ decimalNormalizeClaim (",99".toList) = (".99".toList)
    ∧ decimalNormalize (",99".toList) = ("99".toList)
    ∧ (99 : ℚ) ≠ 99 / 100 := by
  refine ⟨?_, by decide, by decide, by norm_num⟩
  have h0 : (¬pyTruthy (some (",99".toList)) = true
      ∧ ¬pyTruthy (none : Option Str) = true) = False := by
    simp [pyTruthy]
  have h1 : priceStr (some (",99".toList)) = "99".toList := by decide
  have h2 : priceCurrency (some (",99".toList)) none = none := by decide
  have h4 : natOfDigits ("99".toList) = 99 := by decide
  have h3 : parseFloat? ("99".toList) = some ((99 : ℚ)) := by
    rw [parseFloat?_of_head_ne (head_ne_dash_digits (by decide)),
      parseFloatPos_digits ("99".toList) (by decide) (by decide), h4]
    norm_num
  simp only [parse_price, h0, if_false, h1, h2, h3]

/-!
Claim C6: the phone normalizer.
-/

/-- Digits of the digit-and-plus filtered string are the digits of the
original string. -/
theorem onlyDigits_keepDigitsPlus (s : Str) :
    onlyDigits (keepDigitsPlus s) = onlyDigits s := by
  unfold onlyDigits keepDigitsPlus
  rw [List.filter_filter]
  apply List.filter_congr
  intro c _
  cases h : c.isDigit <;> simp [h]

/-- C6 (counterexample): the source keeps every `+`, not only a leading
one; on `"+1+5551234567"` the function returns the interior plus sign
unchanged, while the claim's stripping rule would give
`"+15551234567"`. -/
theorem claim6_counterexample :
    normalize_phone (some ("+1+5551234567".toList)) none = some ("+1+5551234567".toList)
    ∧ normalize_phone_claim (some ("+1+5551234567".toList)) none
      = some ("+15551234567".toList)
    ∧ ("+1+5551234567".toList : Str) ≠ ("+15551234567".toList : Str) := by
  exact ⟨by decide, by decide, by decide⟩

/-- C6 (theorem, amended): `normalize_phone` strips every character
except digits and plus signs (all of them); a stripped result starting
with `+` and holding at least eight digits is returned as-is; otherwise
a known calling code (`UK` aliasing `GB`, case-insensitive country) is
prepended to the zero-stripped digit string; with no match the bare
digit string is returned, or unparseable without digits.  The claim's
two worked examples hold. -/
theorem claim6_amended :
    (∀ p c, normalize_phone p c = normalize_phone_spec p c)
    ∧ normalize_phone (some ("0712345678".toList)) (some ("FR".toList))
      = some ("+33712345678".toList)
    ∧ normalize_phone (some ("+1 (555) 123-4567".toList)) none
      = some ("+15551234567".toList) := by
  refine ⟨?_, by decide, by decide⟩
  intro p c
  match p with
  | none => rfl
  | some s =>
    by_cases hs : s = []
    · subst hs
      rfl
    · have ht : pyTruthy (some s) = true := by simp [pyTruthy, hs]
      have hie : s.isEmpty = false := by
        cases s with
        | nil => exact absurd rfl hs
        | cons d t => rfl
      unfold normalize_phone normalize_phone_spec
      simp only [ht, hie, not_true, Bool.false_eq_true, if_false, pyGetStr,
        Option.getD_some]
      rw [show s.filter (fun c => c.isDigit || c = '+') = keepDigitsPlus s from rfl]
      rw [onlyDigits_keepDigitsPlus s]
      by_cases hint : (keepDigitsPlus s).head? = some '+' ∧ 8 ≤ (onlyDigits s).length
      · rw [if_pos hint, if_pos hint]
      · rw [if_neg hint, if_neg hint]
        cases hcc : List.lookup (pyUpper (c.getD [])) COUNTRY_CODE with
        | some code =>
          cases hd : onlyDigits s with
          | nil => simp only [hcc, hd]; simp
          | cons d ds => simp only [hcc, hd]; simp
        | none =>
          cases hd : onlyDigits s with
          | nil => simp only [hcc, hd]; simp
          | cons d ds => simp only [hcc, hd]; simp

/-!
Field accessors of `canonicalize_row` (definitional equalities).
-/

theorem canon_order_id (ext : Env) (raw : RawRow) :
    (canonicalize_row ext raw).order_id = canonOrderId raw := rfl

theorem canon_country (ext : Env) (raw : RawRow) :
    (canonicalize_row ext raw).country
      = (if pyUpper (pyGetStr raw.country) = [] then none
         else some (pyUpper (pyGetStr raw.country))) := rfl

theorem canon_phone (ext : Env) (raw : RawRow) :
    (canonicalize_row ext raw).phone = normalize_phone raw.phone raw.country := rfl

theorem canon_quantity (ext : Env) (raw : RawRow) :
    (canonicalize_row ext raw).quantity = parse_quantity raw.quantity := rfl

theorem canon_unit_price (ext : Env) (raw : RawRow) :
    (canonicalize_row ext raw).unit_price = (parse_price raw.unit_price raw.currency).1 := rfl

theorem canon_currency (ext : Env) (raw : RawRow) :
    (canonicalize_row ext raw).currency = (parse_price raw.unit_price raw.currency).2 := rfl

theorem canon_order_date (ext : Env) (raw : RawRow) :
    (canonicalize_row ext raw).order_date = parse_date ext.flex raw.order_date := rfl

theorem canon_ship_date (ext : Env) (raw : RawRow) :
    (canonicalize_row ext raw).ship_date = parse_date ext.flex raw.ship_date := rfl

/-!
Upper-casing lemmas.
-/

theorem upChar_idem (c : Char) : upChar (upChar c) = upChar c := by
  rw [upChar.eq_def c]
  split <;> try rfl
  rw [upChar.eq_def]
  split <;> simp_all

theorem pyUpper_idem (s : Str) : pyUpper (pyUpper s) = pyUpper s := by
  unfold pyUpper
  rw [List.map_map]
  exact List.map_congr_left fun c _ => upChar_idem c

/-!
Claims C9 and C10: shape of the canonical `country` and `order_id`.
-/

/-- C9 (counterexample): the code only upper-cases the raw country, so
`"France"` canonicalizes to the six-letter `"FRANCE"`, not a two-letter
code. -/
theorem claim9_counterexample :
    (canonicalize_row env0 rawFrance).country = some ("FRANCE".toList)
    ∧ ("FRANCE".toList : Str).length ≠ 2 := by
  exact ⟨by decide, by decide⟩

/-- C9 (amended): for every raw row, the canonical country is either
null or a nonempty fully upper-cased string (the upper-casing of the
raw value, of any length — two letters are not enforced). -/
theorem claim9_amended (ext : Env) (raw : RawRow) :
    (canonicalize_row ext raw).country = none
    ∨ ∃ u, (canonicalize_row ext raw).country = some u ∧ u ≠ [] ∧ pyUpper u = u := by
  rw [canon_country]
  by_cases hc : pyUpper (pyGetStr raw.country) = []
  · left
    rw [if_pos hc]
  · right
    exact ⟨pyUpper (pyGetStr raw.country), by rw [if_neg hc], hc,
      pyUpper_idem (pyGetStr raw.country)⟩

/-- C9 (witness for the amended theorem). -/
theorem claim9_witness :
    (canonicalize_row env0 rawFrance).country = none
    ∨ ∃ u, (canonicalize_row env0 rawFrance).country = some u ∧ u ≠ []
        ∧ pyUpper u = u :=
  claim9_amended env0 rawFrance

/-- C10: the canonical `order_id` is null or non-negative; every
non-digit (a minus sign included) is dropped before parsing, so
`"-5"` canonicalizes to `5`; an absent, empty or digit-free raw
`order_id` canonicalizes to null. -/
theorem claim10_order_id :
    (∀ (ext : Env) (raw : RawRow) (z : Int),
        (canonicalize_row ext raw).order_id = some z → 0 ≤ z)
    ∧ (∀ (ext : Env) (raw : RawRow), raw.order_id = some ("-5".toList)
        → (canonicalize_row ext raw).order_id = some 5)
    ∧ (∀ (ext : Env) (raw : RawRow),
        (raw.order_id = none ∨ raw.order_id = some [] ∨ onlyDigits (pyGetStr raw.order_id) = [])
        → (canonicalize_row ext raw).order_id = none) := by
  refine ⟨?_, ?_, ?_⟩
  · intro ext raw z h
    rw [canon_order_id] at h
    unfold canonOrderId at h
    split at h
    · dsimp only at h
      split at h
      · cases h
      · rw [Option.some.injEq] at h
        subst h
        exact Int.natCast_nonneg _
    · cases h
  · intro ext raw h
    rw [canon_order_id]
    unfold canonOrderId
    rw [h]
    decide
  · intro ext raw h
    rw [canon_order_id]
    unfold canonOrderId
    rcases h with h | h | h
    · rw [h]
      rfl
    · rw [h]
      rfl
    · by_cases ht : pyTruthy raw.order_id = true
      · simp [ht, h]
      · simp [ht]

/-- C10 (witness): a raw `order_id` of `"-5"` canonicalizes to `5`,
which is non-negative, and an absent one canonicalizes to null. -/
theorem claim10_witness :
    (canonicalize_row env0 { order_id := some ("-5".toList) }).order_id = some 5
    ∧ (0 : Int) ≤ 5
    ∧ (canonicalize_row env0 { order_id := none }).order_id = none := by
  refine ⟨claim10_order_id.2.1 env0 { order_id := some ("-5".toList) } rfl,
    claim10_order_id.1 env0 { order_id := some ("-5".toList) } 5
      (claim10_order_id.2.1 env0 { order_id := some ("-5".toList) } rfl),
    claim10_order_id.2.2 env0 { order_id := none } (Or.inl rfl)⟩

/-!
Claim C4: the validator returns all applicable rules, in order,
verbatim.
-/

/-- Unfolding step for the filtered rule table. -/
theorem filterTable_cons (b : Bool) (r : Str) (rest : List (Bool × Str)) :
    ((((b, r) :: rest).filter (fun p => p.1)).map (fun p => p.2))
      = (if b then [r] else []) ++ ((rest.filter (fun p => p.1)).map (fun p => p.2)) := by
  cases b <;> simp

/-- The quantity rule pair: the source `if/elif` equals the two spec
rules applied independently. -/
theorem quantity_segment (q : Option Int) :
    (match q with
     | none => ["invalid quantity".toList]
     | some x => if x < 0 then ["negative quantity".toList] else [])
    = (if q = none then ["invalid quantity".toList] else [])
      ++ (if (∃ x, q = some x ∧ x < 0) then ["negative quantity".toList] else []) := by
  cases q with
  | none => simp
  | some x => by_cases hx : x < 0 <;> simp [hx]

/-- The unit-price rule pair, likewise. -/
theorem price_segment (p : Option ℚ) :
    (match p with
     | none => ["invalid unit_price".toList]
     | some x => if x < 0 then ["negative unit_price".toList] else [])
    = (if p = none then ["invalid unit_price".toList] else [])
      ++ (if (∃ x, p = some x ∧ x < 0) then ["negative unit_price".toList] else []) := by
  cases p with
  | none => simp
  | some x => by_cases hx : x < 0 <;> simp [hx]

/-- Truthiness agrees with non-nullness away from the empty string. -/
theorem pyTruthy_iff_ne_none {o : Option Str} (h : o ≠ some []) :
    (pyTruthy o = true) ↔ o ≠ none := by
  cases o with
  | none => simp [pyTruthy]
  | some s =>
    cases s with
    | nil => exact absurd rfl h
    | cons c t => simp [pyTruthy]

/-- C4: the validator equals the spec's ordered rule table (on records
whose date and email fields are not the empty string, which the data
model excludes), and a record with null email, phone and address
always receives the verbatim reason `"Contact info Missing"`. -/
theorem claim4_validator :
    (∀ row : Canon, row.order_date ≠ some [] → row.ship_date ≠ some []
      → row.email ≠ some [] → validate_row_canonical row = validatorSpec row)
    ∧ (∀ row : Canon, row.email = none → row.phone = none → row.address = none
      → ("Contact info Missing".toList) ∈ validate_row_canonical row) := by
  constructor
  · intro row h1 h2 h3
    have e2 : (¬pyTruthy row.order_date = true) ↔ (row.order_date = none) := by
      rw [pyTruthy_iff_ne_none h1]
      exact not_not
    have e3 : (pyTruthy row.ship_date = true ∧ pyTruthy row.order_date = true
        ∧ strLt (pyGetStr row.ship_date) (pyGetStr row.order_date) = true)
        ↔ (row.ship_date ≠ none ∧ row.order_date ≠ none
            ∧ strLt (pyGetStr row.ship_date) (pyGetStr row.order_date) = true) := by
      rw [pyTruthy_iff_ne_none h1, pyTruthy_iff_ne_none h2]
    have e8 : (pyTruthy row.email = true ∧ ¬emailOk (pyGetStr row.email) = true)
        ↔ (∃ e, row.email = some e ∧ ¬emailOk e = true) := by
      cases he : row.email with
      | none => simp [pyTruthy]
      | some e =>
        cases e with
        | nil => exact absurd he h3
        | cons c t => simp [pyTruthy, pyGetStr]
    unfold validate_row_canonical validatorSpec ruleTable
    simp only [filterTable_cons, List.filter_nil, List.map_nil, List.append_nil,
      decide_eq_true_eq]
    rw [quantity_segment row.quantity, price_segment row.unit_price]
    simp only [e2, e3, e8]
    simp only [List.append_assoc]
  · intro row he hp ha
    simp [validate_row_canonical, he, hp, ha]

/-- C4 (witness): a concrete contact-free record is validated exactly
by the rule table and receives `"Contact info Missing"`. -/
theorem claim4_witness :
    validate_row_canonical canonNoContact = validatorSpec canonNoContact
    ∧ ("Contact info Missing".toList) ∈ validate_row_canonical canonNoContact :=
  ⟨claim4_validator.1 canonNoContact (by decide) (by decide) (by decide),
   claim4_validator.2 canonNoContact rfl rfl rfl⟩

/-!
Pipeline lemmas (claims C3, C5, C7).
-/

theorem process_clean_def (ext : Env) (df : List RawRow) :
    (process_dataframe ext df).1
      = ((dedupKeepFirst df).map (processRow ext (dedupKeepFirst df))).filterMap
          (fun o => o.getLeft?) := rfl

theorem process_bad_def (ext : Env) (df : List RawRow) :
    (process_dataframe ext df).2.1
      = ((dedupKeepFirst df).map (processRow ext (dedupKeepFirst df))).filterMap
          (fun o => o.getRight?) := rfl

theorem process_dropped_def (ext : Env) (df : List RawRow) :
    (process_dataframe ext df).2.2.1 = df.length - (dedupKeepFirst df).length := rfl

theorem process_conflicting_def (ext : Env) (df : List RawRow) :
    (process_dataframe ext df).2.2.2
      = (dedupKeepFirst df).countP
          (fun r => isConflictKey (dedupKeepFirst df) (keyOf r)) := rfl

/-- Every sum lands in exactly one of the two projections. -/
theorem sum_split_length {α β : Type} (l : List (α ⊕ β)) :
    (l.filterMap (fun o => o.getLeft?)).length
      + (l.filterMap (fun o => o.getRight?)).length = l.length := by
  induction l with
  | nil => rfl
  | cons o rest ih =>
    cases o with
    | inl a =>
      simp only [List.filterMap_cons, Sum.getLeft?_inl, Sum.getRight?_inl,
        List.length_cons]
      omega
    | inr b =>
      simp only [List.filterMap_cons, Sum.getLeft?_inr, Sum.getRight?_inr,
        List.length_cons]
      omega

/-- Right projections count the `isRight` elements. -/
theorem filterMap_getRight_length {α β : Type} (l : List (α ⊕ β)) :
    (l.filterMap (fun o => o.getRight?)).length = l.countP (fun o => o.isRight) := by
  induction l with
  | nil => rfl
  | cons o rest ih =>
    cases o with
    | inl a =>
      simp only [List.filterMap_cons, Sum.getRight?_inl, List.countP_cons, ih,
        Sum.isRight_inl]
      simp
    | inr b =>
      simp only [List.filterMap_cons, Sum.getRight?_inr, List.countP_cons, ih,
        Sum.isRight_inr, List.length_cons]
      simp

/-- Deduplication never lengthens the list. -/
theorem dedupAux_length_le (seen : List RawRow) (l : List RawRow) :
    (dedupAux seen l).length ≤ l.length := by
  induction l generalizing seen with
  | nil => exact Nat.le_refl 0
  | cons r rest ih =>
    unfold dedupAux
    by_cases hm : r ∈ seen
    · rw [if_pos hm]
      exact Nat.le_succ_of_le (ih seen)
    · rw [if_neg hm]
      simpa using ih (r :: seen)

theorem dedup_length_le (df : List RawRow) : (dedupKeepFirst df).length ≤ df.length :=
  dedupAux_length_le [] df

/-- A conflicting row is always routed to the rejected stream, with the
conflict reason appended after the validator's reasons. -/
theorem processRow_conflict (ext : Env) (dd : List RawRow) (r : RawRow)
    (h : isConflictKey dd (keyOf r) = true) :
    processRow ext dd r = Sum.inr (r.order_id, r.item_sku,
      joinSemic (validate_row_canonical (canonicalize_row ext r) ++ [conflictReason]),
      ext.serialize r, ext.now) := by
  unfold processRow
  simp only [h, if_true]
  rw [if_neg (by simp)]

/-- Join of at least two reasons: head, separator, join of the rest. -/
theorem joinSemic_cons_cons (a b : Str) (m : List Str) :
    joinSemic (a :: b :: m) = a ++ ("; ".toList) ++ joinSemic (b :: m) := rfl

/-- The last reason of a join is a suffix of the joined string. -/
theorem joinSemic_suffix (l : List Str) (x : Str) :
    x <:+ joinSemic (l ++ [x]) := by
  induction l with
  | nil => exact List.suffix_refl x
  | cons a l ih =>
    cases l with
    | nil =>
      exact ⟨a ++ ("; ".toList), by simp [joinSemic, joinSemic_cons_cons]⟩
    | cons b m =>
      obtain ⟨t, ht⟩ := ih
      refine ⟨a ++ ("; ".toList) ++ t, ?_⟩
      have hshape : ((a :: b :: m) ++ [x]) = a :: b :: (m ++ [x]) := rfl
      rw [hshape, joinSemic_cons_cons]
      have ht2 : t ++ x = joinSemic (b :: (m ++ [x])) := ht
      rw [← ht2]
      simp [List.append_assoc]

/-- Clean and rejected outputs partition the post-dedup rows. -/
theorem process_partition (ext : Env) (df : List RawRow) :
    (process_dataframe ext df).1.length + (process_dataframe ext df).2.1.length
      = (dedupKeepFirst df).length := by
  rw [process_clean_def, process_bad_def]
  have h := sum_split_length ((dedupKeepFirst df).map (processRow ext (dedupKeepFirst df)))
  simpa using h

/-- Read = dropped + clean + rejected. -/
theorem process_counters (ext : Env) (df : List RawRow) :
    df.length = (process_dataframe ext df).2.2.1
      + ((process_dataframe ext df).1.length + (process_dataframe ext df).2.1.length) := by
  rw [process_dropped_def, process_partition]
  have h := dedup_length_le df
  omega

/-- Every conflicting row is rejected, so the rejected stream is at
least as long as the conflicting count. -/
theorem process_conflict_le_bad (ext : Env) (df : List RawRow) :
    (process_dataframe ext df).2.2.2 ≤ (process_dataframe ext df).2.1.length := by
  rw [process_conflicting_def, process_bad_def, filterMap_getRight_length,
    List.countP_map]
  apply List.countP_mono_left
  intro r _ hr
  have h := processRow_conflict ext (dedupKeepFirst df) r hr
  simp [Function.comp, h]

/-- A row of a conflicting-key group yields a rejected entry carrying
its raw key and the conflict reason as a suffix of the joined reasons. -/
theorem conflict_routed (ext : Env) (df : List RawRow) (r : RawRow)
    (hm : r ∈ dedupKeepFirst df)
    (hc : isConflictKey (dedupKeepFirst df) (keyOf r) = true) :
    ∃ e ∈ (process_dataframe ext df).2.1,
      e.1 = r.order_id ∧ e.2.1 = r.item_sku ∧ conflictReason <:+ e.2.2.1 := by
  refine ⟨(r.order_id, r.item_sku,
    joinSemic (validate_row_canonical (canonicalize_row ext r) ++ [conflictReason]),
    ext.serialize r, ext.now), ?_, rfl, rfl, ?_⟩
  · rw [process_bad_def]
    exact List.mem_filterMap.mpr ⟨processRow ext (dedupKeepFirst df) r,
      List.mem_map_of_mem _ hm,
      by rw [processRow_conflict ext (dedupKeepFirst df) r hc]; rfl⟩
  · exact joinSemic_suffix _ _

/-- A rejected entry always carries the raw key of its row. -/
theorem processRow_inr_key (ext : Env) (dd : List RawRow) (r : RawRow) (e : BadRow)
    (h : processRow ext dd r = Sum.inr e) :
    e.1 = r.order_id ∧ e.2.1 = r.item_sku := by
  unfold processRow at h
  dsimp only at h
  split at h <;> split at h
  all_goals try cases h
  all_goals exact ⟨rfl, rfl⟩

/-- C3: exact duplicates are collapsed and only counted (the dropped
count is the batch length minus the dedup length, and every surviving
row is emitted exactly once as clean or rejected — never both, so
duplicates are never emitted as rejections); every row of a
conflicting-key group is rejected with the verbatim conflict reason;
and on the section-8 batch the counts are 1 exact duplicate and 2
conflicting rows, both rejected with the conflict reason, with
read = dropped + clean + rejected. -/
theorem claim3_dedup_conflict :
    (∀ (ext : Env) (df : List RawRow),
      (process_dataframe ext df).2.2.1 = df.length - (dedupKeepFirst df).length
      ∧ (process_dataframe ext df).1.length + (process_dataframe ext df).2.1.length
          = (dedupKeepFirst df).length)
    ∧ (∀ (ext : Env) (df : List RawRow) (r : RawRow), r ∈ dedupKeepFirst df
        → isConflictKey (dedupKeepFirst df) (keyOf r) = true
        → ∃ e ∈ (process_dataframe ext df).2.1,
            e.1 = r.order_id ∧ e.2.1 = r.item_sku ∧ conflictReason <:+ e.2.2.1)
    ∧ (∀ ext : Env,
        (process_dataframe ext sampleBatch).2.2.1 = 1
        ∧ (process_dataframe ext sampleBatch).2.2.2 = 2
        ∧ (process_dataframe ext sampleBatch).2.1.countP
            (fun e => decide (e.1 = some ("7".toList) ∧ e.2.1 = some ("A".toList))) = 2
        ∧ (∀ e ∈ (process_dataframe ext sampleBatch).2.1,
            e.1 = some ("7".toList) → conflictReason <:+ e.2.2.1)
        ∧ sampleBatch.length = (process_dataframe ext sampleBatch).2.2.1
            + ((process_dataframe ext sampleBatch).1.length
              + (process_dataframe ext sampleBatch).2.1.length)) := by
  have hdd : dedupKeepFirst sampleBatch = [sampleRow1, sampleRow2, sampleRow3] := by
    decide
  refine ⟨fun ext df => ⟨process_dropped_def ext df, process_partition ext df⟩,
    conflict_routed, fun ext => ⟨?_, ?_, ?_, ?_, process_counters ext sampleBatch⟩⟩
  · rw [process_dropped_def, hdd]
    rfl
  · rw [process_conflicting_def, hdd]
    decide
  · rw [process_bad_def, hdd]
    simp only [List.map_cons, List.map_nil]
    rw [processRow_conflict ext [sampleRow1, sampleRow2, sampleRow3] sampleRow2 (by decide),
      processRow_conflict ext [sampleRow1, sampleRow2, sampleRow3] sampleRow3 (by decide)]
    cases h1 : processRow ext [sampleRow1, sampleRow2, sampleRow3] sampleRow1 with
    | inl c =>
      simp [List.filterMap_cons, List.countP_cons, sampleRow1, sampleRow2, sampleRow3]
    | inr e =>
      have he : e.1 = sampleRow1.order_id := (processRow_inr_key ext _ _ e h1).1
      simp only [List.filterMap_cons, Sum.getRight?_inr, List.filterMap_nil]
      simp [List.countP_cons, sampleRow1, sampleRow2, sampleRow3, he]
  · rw [process_bad_def, hdd]
    simp only [List.map_cons, List.map_nil]
    rw [processRow_conflict ext [sampleRow1, sampleRow2, sampleRow3] sampleRow2 (by decide),
      processRow_conflict ext [sampleRow1, sampleRow2, sampleRow3] sampleRow3 (by decide)]
    intro e he hkey
    cases h1 : processRow ext [sampleRow1, sampleRow2, sampleRow3] sampleRow1 with
    | inl c =>
      rw [h1] at he
      simp only [List.filterMap_cons, Sum.getRight?_inl, Sum.getRight?_inr,
        List.filterMap_nil, List.mem_cons, List.not_mem_nil, or_false] at he
      rcases he with he | he <;> (subst he; exact joinSemic_suffix _ _)
    | inr e1 =>
      have he1 : e1.1 = sampleRow1.order_id := (processRow_inr_key ext _ _ e1 h1).1
      rw [h1] at he
      simp only [List.filterMap_cons, Sum.getRight?_inr, List.filterMap_nil,
        List.mem_cons, List.not_mem_nil, or_false] at he
      rcases he with he | he | he
      · subst he
        rw [he1] at hkey
        simp [sampleRow1] at hkey
      · subst he
        exact joinSemic_suffix _ _
      · subst he
        exact joinSemic_suffix _ _

/-- C3 (witness): on the section-8 batch, the conflicting row with key
`(7, "A")` produces a rejected entry carrying the conflict reason. -/
theorem claim3_witness :
    ∃ e ∈ (process_dataframe env0 sampleBatch).2.1,
      e.1 = sampleRow2.order_id ∧ e.2.1 = sampleRow2.item_sku
        ∧ conflictReason <:+ e.2.2.1 :=
  claim3_dedup_conflict.2.1 env0 sampleBatch sampleRow2 (by decide) (by decide)

/-- C5: the four counters reconcile on every batch:
`read = exact_dropped + clean + rejected`, and
`rejected ≥ conflicting`. -/
theorem claim5_counters (ext : Env) (df : List RawRow) :
    df.length = (process_dataframe ext df).2.2.1
      + ((process_dataframe ext df).1.length + (process_dataframe ext df).2.1.length)
    ∧ (process_dataframe ext df).2.2.2 ≤ (process_dataframe ext df).2.1.length :=
  ⟨process_counters ext df, process_conflict_le_bad ext df⟩

/-- C7: in this embedding every parser is a total function — 
`parse_date` always returns a date string or the unparseable marker
(`none`), for every flexible-parser behaviour — and the batch pipeline
resolves every input row into exactly one of the three outcomes: the
clean and rejected streams partition the post-dedup rows and the rest
is the dropped count, so no row is lost or duplicated and no error
path exists. -/
theorem claim7_no_throw :
    (∀ (flex : Str → Option Date) (s : Option Str),
        parse_date flex s = none ∨ ∃ d, parse_date flex s = some d)
    ∧ (∀ (ext : Env) (df : List RawRow),
        (process_dataframe ext df).1.length + (process_dataframe ext df).2.1.length
          = (dedupKeepFirst df).length
        ∧ (process_dataframe ext df).2.2.1 = df.length - (dedupKeepFirst df).length
        ∧ df.length = (process_dataframe ext df).2.2.1
            + ((process_dataframe ext df).1.length
              + (process_dataframe ext df).2.1.length)) := by
  refine ⟨fun flex s => ?_, fun ext df =>
    ⟨process_partition ext df, process_dropped_def ext df, process_counters ext df⟩⟩
  cases h : parse_date flex s with
  | none => exact Or.inl rfl
  | some d => exact Or.inr ⟨d, rfl⟩

/-!
Decimal rendering lemmas (claim C8).
-/

theorem natOfDigits_shift (l : Str) (x : Nat) :
    l.foldl (fun a c => 10 * a + dig c) x = x * 10 ^ l.length + natOfDigits l := by
  induction l generalizing x with
  | nil => simp [natOfDigits]
  | cons c t ih =>
    show List.foldl _ (10 * x + dig c) t = _
    rw [ih (10 * x + dig c)]
    have hc : natOfDigits (c :: t) = dig c * 10 ^ t.length + natOfDigits t := by
      show List.foldl _ (10 * 0 + dig c) t = _
      rw [ih (10 * 0 + dig c)]
      ring
    rw [hc]
    simp [List.length_cons, pow_succ]
    ring

theorem natOfDigits_append (a b : Str) :
    natOfDigits (a ++ b) = natOfDigits a * 10 ^ b.length + natOfDigits b := by
  unfold natOfDigits
  rw [List.foldl_append]
  exact natOfDigits_shift b _

theorem natOfDigits_single (c : Char) : natOfDigits [c] = dig c := by
  simp [natOfDigits, dig]

theorem digitChar_isDigit (d : Nat) : (digitChar d).isDigit = true := by
  unfold digitChar
  split <;> decide

theorem dig_digitChar (d : Nat) (h : d < 10) : dig (digitChar d) = d := by
  interval_cases d <;> decide

theorem natDigitsF_zero (fuel : Nat) : natDigitsF fuel 0 = [] := by
  cases fuel <;> rfl

theorem natOfDigits_natDigitsF (fuel : Nat) :
    ∀ n, n ≤ fuel → natOfDigits (((natDigitsF fuel n).map digitChar).reverse) = n := by
  induction fuel with
  | zero =>
    intro n hn
    have : n = 0 := by omega
    subst this
    rfl
  | succ fuel ih =>
    intro n hn
    by_cases hz : n = 0
    · subst hz
      rfl
    · show natOfDigits (((if n = 0 then [] else (n % 10) :: natDigitsF fuel (n / 10)).map
        digitChar).reverse) = n
      rw [if_neg hz]
      simp only [List.map_cons, List.reverse_cons]
      have hlt : n / 10 < n := Nat.div_lt_self (Nat.pos_of_ne_zero hz) (by norm_num)
      rw [natOfDigits_append, ih (n / 10) (by omega)]
      rw [natOfDigits_single, dig_digitChar (n % 10) (Nat.mod_lt _ (by norm_num))]
      simp only [List.length_cons, List.length_nil, pow_one]
      omega

theorem natOfDigits_renderNat (n : Nat) : natOfDigits (renderNat n) = n := by
  unfold renderNat
  by_cases hz : n = 0
  · rw [if_pos hz, hz]
    decide
  · rw [if_neg hz]
    exact natOfDigits_natDigitsF n n (Nat.le_refl n)

theorem renderNat_digits (n : Nat) : (renderNat n).all Char.isDigit = true := by
  unfold renderNat
  split
  · decide
  · rw [List.all_eq_true]
    intro c hc
    rw [List.mem_reverse, List.mem_map] at hc
    obtain ⟨d, _, rfl⟩ := hc
    exact digitChar_isDigit d

theorem renderNat_ne_nil (n : Nat) : renderNat n ≠ [] := by
  unfold renderNat
  split
  · simp
  · intro h
    rw [List.reverse_eq_nil_iff, List.map_eq_nil_iff] at h
    have hz : ¬n = 0 := by assumption
    obtain ⟨f, rfl⟩ : ∃ f, n = f + 1 := ⟨n - 1, by omega⟩
    rw [show natDigits (f + 1) = natDigitsF (f + 1) (f + 1) from rfl] at h
    unfold natDigitsF at h
    rw [if_neg hz] at h
    cases h

theorem natDigitsF_len (fuel : Nat) :
    ∀ n k, n ≤ fuel → n < 10 ^ k → (natDigitsF fuel n).length ≤ k := by
  induction fuel with
  | zero =>
    intro n k hn _
    simp [natDigitsF]
  | succ fuel ih =>
    intro n k hn hk
    by_cases hz : n = 0
    · subst hz
      simp [natDigitsF]
    · unfold natDigitsF
      rw [if_neg hz]
      cases k with
      | zero =>
        exfalso
        simp at hk
        omega
      | succ k =>
        have hdiv : n / 10 < 10 ^ k := by
          rw [Nat.div_lt_iff_lt_mul (by norm_num)]
          rw [pow_succ] at hk
          exact hk
        have hfuel : n / 10 ≤ fuel := by
          have hlt : n / 10 < n := Nat.div_lt_self (Nat.pos_of_ne_zero hz) (by norm_num)
          omega
        have := ih (n / 10) k hfuel hdiv
        simp only [List.length_cons]
        omega

theorem renderNat_len (n k : Nat) (hk : 1 ≤ k) (h : n < 10 ^ k) :
    (renderNat n).length ≤ k := by
  unfold renderNat
  split
  · simpa using hk
  · rw [List.length_reverse, List.length_map]
    exact natDigitsF_len n n k (Nat.le_refl n) h

theorem padLeftZeros_len (k : Nat) (l : Str) (h : l.length ≤ k) :
    (padLeftZeros k l).length = k := by
  simp [padLeftZeros]
  omega

theorem natOfDigits_replicate_zero (z : Nat) :
    natOfDigits (List.replicate z '0') = 0 := by
  induction z with
  | zero => rfl
  | succ z ih =>
    rw [List.replicate_succ]
    have hstep : natOfDigits ('0' :: List.replicate z '0')
        = List.foldl (fun a c => 10 * a + dig c) (10 * 0 + dig '0')
            (List.replicate z '0') := rfl
    rw [hstep, natOfDigits_shift, ih, (by decide : dig '0' = 0)]
    simp

theorem natOfDigits_padLeft (k : Nat) (l : Str) :
    natOfDigits (padLeftZeros k l) = natOfDigits l := by
  unfold padLeftZeros
  rw [natOfDigits_append, natOfDigits_replicate_zero]
  simp

theorem padLeftZeros_digits (k : Nat) (l : Str) (h : l.all Char.isDigit = true) :
    (padLeftZeros k l).all Char.isDigit = true := by
  unfold padLeftZeros
  rw [List.all_append, h]
  rw [Bool.and_eq_true]
  refine ⟨?_, rfl⟩
  rw [List.all_eq_true]
  intro c hc
  rw [List.eq_of_mem_replicate hc]
  decide

theorem natDigitsF_single (fuel m : Nat) (h1 : 1 ≤ m) (h9 : m ≤ 9) (hf : 1 ≤ fuel) :
    natDigitsF fuel m = [m] := by
  obtain ⟨f, rfl⟩ : ∃ f, fuel = f + 1 := ⟨fuel - 1, by omega⟩
  unfold natDigitsF
  rw [if_neg (by omega)]
  rw [Nat.mod_eq_of_lt (by omega), Nat.div_eq_of_lt (by omega), natDigitsF_zero]

theorem renderNat_single (n : Nat) (h1 : 1 ≤ n) (h2 : n ≤ 9) :
    renderNat n = [digitChar n] := by
  unfold renderNat
  rw [if_neg (by omega)]
  rw [show natDigits n = natDigitsF n n from rfl, natDigitsF_single n n h1 h2 (by omega)]
  rfl

theorem renderNat_two (n : Nat) (h1 : 10 ≤ n) (h2 : n ≤ 99) :
    renderNat n = [digitChar (n / 10), digitChar (n % 10)] := by
  unfold renderNat
  rw [if_neg (by omega)]
  rw [show natDigits n = natDigitsF n n from rfl]
  obtain ⟨f, rfl⟩ : ∃ f, n = f + 1 := ⟨n - 1, by omega⟩
  unfold natDigitsF
  rw [if_neg (by omega)]
  rw [natDigitsF_single f ((f + 1) / 10) (by omega) (by omega) (by omega)]
  simp

theorem digitChar_one_to_nine (m : Nat) (h1 : 1 ≤ m) (h2 : m ≤ 9) :
    '1' ≤ digitChar m ∧ digitChar m ≤ '9' := by
  interval_cases m <;> exact ⟨by decide, by decide⟩

theorem monthP_pad (m : Nat) (rest : Str) (h1 : 1 ≤ m) (h2 : m ≤ 12) :
    monthP (padLeftZeros 2 (renderNat m) ++ rest) = some (m, rest) := by
  by_cases hm : m ≤ 9
  · rw [renderNat_single m h1 hm]
    show monthP ('0' :: digitChar m :: rest) = some (m, rest)
    unfold monthP
    dsimp only
    rw [if_neg (fun h => absurd h.1 (by decide))]
    rw [if_pos ⟨rfl, (digitChar_one_to_nine m h1 hm).1, (digitChar_one_to_nine m h1 hm).2⟩]
    rw [dig_digitChar m (by omega)]
  · rcases (by omega : m = 10 ∨ m = 11 ∨ m = 12) with rfl | rfl | rfl
    · rw [renderNat_two 10 (by omega) (by omega),
        (by norm_num : (10 : Nat) / 10 = 1), (by norm_num : (10 : Nat) % 10 = 0)]
      show monthP ('1' :: '0' :: rest) = some (10, rest)
      unfold monthP
      dsimp only
      rw [if_pos ⟨rfl, by decide, by decide⟩, (by decide : dig '0' = 0)]
    · rw [renderNat_two 11 (by omega) (by omega),
        (by norm_num : (11 : Nat) / 10 = 1), (by norm_num : (11 : Nat) % 10 = 1)]
      show monthP ('1' :: '1' :: rest) = some (11, rest)
      unfold monthP
      dsimp only
      rw [if_pos ⟨rfl, by decide, by decide⟩, (by decide : dig '1' = 1)]
    · rw [renderNat_two 12 (by omega) (by omega),
        (by norm_num : (12 : Nat) / 10 = 1), (by norm_num : (12 : Nat) % 10 = 2)]
      show monthP ('1' :: '2' :: rest) = some (12, rest)
      unfold monthP
      dsimp only
      rw [if_pos ⟨rfl, by decide, by decide⟩, (by decide : dig '2' = 2)]

theorem dayP_pad (d : Nat) (rest : Str) (h1 : 1 ≤ d) (h2 : d ≤ 31) :
    dayP (padLeftZeros 2 (renderNat d) ++ rest) = some (d, rest) := by
  by_cases hd : d ≤ 9
  · rw [renderNat_single d h1 hd]
    show dayP ('0' :: digitChar d :: rest) = some (d, rest)
    unfold dayP
    dsimp only
    rw [if_neg (fun h => absurd h.1 (by decide))]
    rw [if_neg (fun h => by rcases h.1 with h' | h' <;> exact absurd h' (by decide))]
    rw [if_pos ⟨rfl, (digitChar_one_to_nine d h1 hd).1, (digitChar_one_to_nine d h1 hd).2⟩]
    rw [dig_digitChar d (by omega)]
  · by_cases hd2 : d ≤ 29
    · rw [renderNat_two d (by omega) (by omega)]
      have hq : d / 10 = 1 ∨ d / 10 = 2 := by omega
      have hmod : d % 10 < 10 := Nat.mod_lt _ (by norm_num)
      rcases hq with hq | hq
      · rw [hq]
        show dayP ('1' :: digitChar (d % 10) :: rest) = some (d, rest)
        unfold dayP
        dsimp only
        rw [if_neg (fun h => absurd h.1 (by decide))]
        rw [if_pos ⟨Or.inl rfl, digitChar_isDigit _⟩]
        rw [dig_digitChar _ hmod, (by decide : dig '1' = 1)]
        have : 10 * 1 + d % 10 = d := by omega
        rw [this]
      · rw [hq]
        show dayP ('2' :: digitChar (d % 10) :: rest) = some (d, rest)
        unfold dayP
        dsimp only
        rw [if_neg (fun h => absurd h.1 (by decide))]
        rw [if_pos ⟨Or.inr rfl, digitChar_isDigit _⟩]
        rw [dig_digitChar _ hmod, (by decide : dig '2' = 2)]
        have : 10 * 2 + d % 10 = d := by omega
        rw [this]
    · rcases (by omega : d = 30 ∨ d = 31) with rfl | rfl
      · rw [renderNat_two 30 (by omega) (by omega),
          (by norm_num : (30 : Nat) / 10 = 3), (by norm_num : (30 : Nat) % 10 = 0)]
        show dayP ('3' :: '0' :: rest) = some (30, rest)
        unfold dayP
        dsimp only
        rw [if_pos ⟨rfl, Or.inl rfl⟩, (by decide : dig '0' = 0)]
      · rw [renderNat_two 31 (by omega) (by omega),
          (by norm_num : (31 : Nat) / 10 = 3), (by norm_num : (31 : Nat) % 10 = 1)]
        show dayP ('3' :: '1' :: rest) = some (31, rest)
        unfold dayP
        dsimp only
        rw [if_pos ⟨rfl, Or.inr rfl⟩, (by decide : dig '1' = 1)]

theorem year4P_pad (y : Nat) (rest : Str) (h1 : 1 ≤ y) (h2 : y ≤ 9999) :
    year4P (padLeftZeros 4 (renderNat y) ++ rest) = some (y, rest) := by
  have hlen : (padLeftZeros 4 (renderNat y)).length = 4 :=
    padLeftZeros_len 4 _ (renderNat_len y 4 (by norm_num) (by omega))
  have hdig : (padLeftZeros 4 (renderNat y)).all Char.isDigit = true :=
    padLeftZeros_digits 4 _ (renderNat_digits y)
  have hval : natOfDigits (padLeftZeros 4 (renderNat y)) = y := by
    rw [natOfDigits_padLeft, natOfDigits_renderNat]
  generalize hgen : padLeftZeros 4 (renderNat y) = w at hlen hdig hval
  rcases w with _ | ⟨a, _ | ⟨b, _ | ⟨c, _ | ⟨d, _ | ⟨e, t⟩⟩⟩⟩⟩ <;>
    simp only [List.length_nil, List.length_cons] at hlen
  case nil => omega
  case cons.nil => omega
  case cons.cons.nil => omega
  case cons.cons.cons.nil => omega
  case cons.cons.cons.cons.cons => omega
  case cons.cons.cons.cons.nil =>
    simp only [List.all_cons, List.all_nil, Bool.and_eq_true, Bool.and_true] at hdig
    show year4P (a :: b :: c :: d :: rest) = some (y, rest)
    unfold year4P
    dsimp only
    rw [if_pos ⟨hdig.1, hdig.2.1, hdig.2.2.1, hdig.2.2.2⟩]
    rw [show natOfDigits [a, b, c, d] = y from hval]

theorem daysInMonth_le (y m : Nat) : daysInMonth y m ≤ 31 := by
  unfold daysInMonth
  repeat' split
  all_goals omega

theorem pYmd_isoDate (dt : Date) (hv : ValidDate dt) : pYmd (isoDate dt) = some dt := by
  obtain ⟨hy1, hy2, hm1, hm2, hd1, hd2⟩ := hv
  unfold pYmd ymdPartP
  rw [show isoDate dt = padLeftZeros 4 (renderNat dt.y)
    ++ (('-' :: padLeftZeros 2 (renderNat dt.m))
      ++ ('-' :: padLeftZeros 2 (renderNat dt.d))) from by
    simp [isoDate, List.append_assoc]]
  rw [year4P_pad dt.y _ hy1 hy2]
  dsimp only
  rw [List.cons_append]
  unfold litP
  dsimp only
  rw [if_pos rfl]
  dsimp only
  rw [monthP_pad dt.m _ hm1 hm2]
  dsimp only
  rw [if_pos rfl]
  dsimp only
  have hday := dayP_pad dt.d [] hd1 (le_trans hd2 (daysInMonth_le dt.y dt.m))
  rw [List.append_nil] at hday
  rw [hday]
  dsimp only
  rw [if_pos ⟨hy1, hy2, hm1, hm2, hd1, hd2⟩]

theorem tryFormats_isoDate (dt : Date) (hv : ValidDate dt) :
    tryFormats (isoDate dt) = some dt := by
  unfold tryFormats
  rw [pYmd_isoDate dt hv]

theorem pYmd_valid {s : Str} {dt : Date} (h : pYmd s = some dt) : ValidDate dt := by
  unfold pYmd at h
  repeat' split at h
  all_goals first
    | (rw [Option.some.injEq] at h; subst h; assumption)
    | cases h

theorem pIsoTz_valid {s : Str} {dt : Date} (h : pIsoTz s = some dt) : ValidDate dt := by
  unfold pIsoTz at h
  dsimp only at h
  repeat' split at h
  all_goals first
    | (rw [Option.some.injEq] at h; subst h; assumption)
    | cases h

theorem pIsoNoTz_valid {s : Str} {dt : Date} (h : pIsoNoTz s = some dt) : ValidDate dt := by
  unfold pIsoNoTz at h
  repeat' split at h
  all_goals first
    | (rw [Option.some.injEq] at h; subst h; assumption)
    | cases h

theorem pMdY_valid {s : Str} {dt : Date} (h : pMdY s = some dt) : ValidDate dt := by
  unfold pMdY at h
  repeat' split at h
  all_goals first
    | (rw [Option.some.injEq] at h; subst h; assumption)
    | cases h

theorem pDmY_valid {s : Str} {dt : Date} (h : pDmY s = some dt) : ValidDate dt := by
  unfold pDmY at h
  repeat' split at h
  all_goals first
    | (rw [Option.some.injEq] at h; subst h; assumption)
    | cases h

theorem pMdy2_valid {s : Str} {dt : Date} (h : pMdy2 s = some dt) : ValidDate dt := by
  unfold pMdy2 at h
  repeat' split at h
  all_goals first
    | (rw [Option.some.injEq] at h; subst h; assumption)
    | cases h

theorem pDMYslash_valid {s : Str} {dt : Date} (h : pDMYslash s = some dt) : ValidDate dt := by
  unfold pDMYslash at h
  repeat' split at h
  all_goals first
    | (rw [Option.some.injEq] at h; subst h; assumption)
    | cases h

theorem tryFormats_valid {s : Str} {dt : Date} (h : tryFormats s = some dt) :
    ValidDate dt := by
  unfold tryFormats at h
  repeat' split at h
  all_goals try (rw [Option.some.injEq] at h; subst h)
  all_goals first
    | exact pYmd_valid (by assumption)
    | exact pIsoTz_valid (by assumption)
    | exact pIsoNoTz_valid (by assumption)
    | exact pMdY_valid (by assumption)
    | exact pDmY_valid (by assumption)
    | exact pMdy2_valid (by assumption)
    | exact pDMYslash_valid (by assumption)

theorem dropWhile_eq_self_of_all {m : Str}
    (hm : m.all (fun c => !c.isWhitespace) = true) :
    m.dropWhile Char.isWhitespace = m := by
  cases m with
  | nil => rfl
  | cons c t =>
    simp only [List.all_cons, Bool.and_eq_true, Bool.not_eq_eq_eq_not, Bool.not_true] at hm
    rw [List.dropWhile_cons, if_neg (by simp [hm.1])]

theorem pyStrip_eq_self {l : Str} (h : l.all (fun c => !c.isWhitespace) = true) :
    pyStrip l = l := by
  unfold pyStrip
  rw [dropWhile_eq_self_of_all h,
    dropWhile_eq_self_of_all (by rw [List.all_reverse]; exact h), List.reverse_reverse]

theorem ws_false_of_digit {c : Char} (h : c.isDigit = true) :
    (!c.isWhitespace) = true := by
  by_contra hw
  simp only [Bool.not_eq_eq_eq_not, Bool.not_true, Bool.not_eq_false] at hw
  unfold Char.isWhitespace at hw
  simp only [Bool.or_eq_true, decide_eq_true_eq] at hw
  rcases hw with ((hw | hw) | hw) | hw <;> (subst hw; cases h)

theorem isoDate_no_ws (dt : Date) :
    (isoDate dt).all (fun c => !c.isWhitespace) = true := by
  have hpad : ∀ k n, (padLeftZeros k (renderNat n)).all (fun c => !c.isWhitespace) = true := by
    intro k n
    have := padLeftZeros_digits k (renderNat n) (renderNat_digits n)
    rw [List.all_eq_true] at this ⊢
    intro c hc
    exact ws_false_of_digit (this c hc)
  unfold isoDate
  simp only [List.all_append, List.all_cons, Bool.and_eq_true]
  exact ⟨⟨hpad 4 dt.y, by decide, hpad 2 dt.m⟩, by decide, hpad 2 dt.d⟩

theorem isoDate_ne_nil (dt : Date) : isoDate dt ≠ [] := by
  unfold isoDate
  simp

/-- Successful date parses are ISO renderings of valid dates (the
flexible parser is assumed to return only constructor-valid dates, as
`pandas` timestamps are). -/
theorem parse_date_shape {flex : Str → Option Date} {x : Option Str} {d : Str}
    (hf2 : ∀ s dt, flex s = some dt → ValidDate dt)
    (h : parse_date flex x = some d) :
    ∃ dt, ValidDate dt ∧ d = isoDate dt := by
  unfold parse_date at h
  cases x with
  | none => simp at h
  | some s0 =>
    dsimp only at h
    by_cases hs : s0 = []
    · rw [if_pos hs] at h
      cases h
    · rw [if_neg hs] at h
      cases hfx : flex (pyStrip s0) with
      | some dt =>
        rw [hfx] at h
        dsimp only at h
        rw [Option.some.injEq] at h
        exact ⟨dt, hf2 _ dt hfx, h.symm⟩
      | none =>
        rw [hfx] at h
        dsimp only at h
        rw [Option.map_eq_some'] at h
        obtain ⟨dt, hdt, hiso⟩ := h
        exact ⟨dt, tryFormats_valid hdt, hiso.symm⟩

/-- Re-parsing a rendered ISO date gives the same date, whether the
flexible parser recognizes it or falls through to the format list. -/
theorem parse_date_refeed (flex : Str → Option Date)
    (hf1 : ∀ dt, ValidDate dt → flex (isoDate dt) = some dt ∨ flex (isoDate dt) = none)
    (dt : Date) (hv : ValidDate dt) :
    parse_date flex (some (isoDate dt)) = some (isoDate dt) := by
  unfold parse_date
  dsimp only
  rw [if_neg (isoDate_ne_nil dt)]
  rw [pyStrip_eq_self (isoDate_no_ws dt)]
  rcases hf1 dt hv with h | h
  · rw [h]
  · rw [h]
    dsimp only
    rw [tryFormats_isoDate dt hv]
    rfl

/-- Idempotence of `parse_date` on its own successful output. -/
theorem parse_date_idem {flex : Str → Option Date} {x : Option Str} {d : Str}
    (hf1 : ∀ dt, ValidDate dt → flex (isoDate dt) = some dt ∨ flex (isoDate dt) = none)
    (hf2 : ∀ s dt, flex s = some dt → ValidDate dt)
    (h : parse_date flex x = some d) :
    parse_date flex (some d) = some d := by
  obtain ⟨dt, hv, rfl⟩ := parse_date_shape hf2 h
  exact parse_date_refeed flex hf1 dt hv

/-!
Text-normalization round-trip: `" ".join(s.split())` is a fixed point of
strip-and-split, so `canonN` is idempotent whenever the NFKC collaborator
is stable on already-normalized text.
-/

theorem splitWs_all_ws {t : Str} (ht : ∀ c ∈ t, c.isWhitespace = true) :
    splitWs t = [] := by
  induction t with
  | nil => rfl
  | cons c r ih =>
    unfold splitWs
    rw [if_pos (ht c (List.mem_cons_self c r))]
    exact ih (fun d hd => ht d (List.mem_cons_of_mem c hd))

theorem splitWs_cons_of_ws {c : Char} (r : Str) (h : c.isWhitespace = true) :
    splitWs (c :: r) = splitWs r := by
  conv_lhs => unfold splitWs
  rw [if_pos h]

theorem splitWs_word {w : Str} (hne : w ≠ [])
    (hw : w.all (fun c => !c.isWhitespace) = true) : splitWs w = [w] := by
  induction w with
  | nil => exact absurd rfl hne
  | cons c t ih =>
    simp only [List.all_cons, Bool.and_eq_true, Bool.not_eq_true'] at hw
    unfold splitWs
    rw [if_neg (by simp [hw.1])]
    cases t with
    | nil => rfl
    | cons d t2 =>
      have hd : d.isWhitespace = false := by
        have h2 := hw.2
        simp only [List.all_cons, Bool.and_eq_true, Bool.not_eq_true'] at h2
        exact h2.1
      have ih2 := ih (by simp) hw.2
      dsimp only
      rw [if_neg (by simp [hd]), ih2]

theorem splitWs_word_space {w : Str} (r : Str) (hne : w ≠ [])
    (hw : w.all (fun c => !c.isWhitespace) = true) :
    splitWs (w ++ ' ' :: r) = w :: splitWs r := by
  induction w with
  | nil => exact absurd rfl hne
  | cons c t ih =>
    simp only [List.all_cons, Bool.and_eq_true, Bool.not_eq_true'] at hw
    rw [List.cons_append]
    conv_lhs => unfold splitWs
    rw [if_neg (by simp [hw.1])]
    cases t with
    | nil =>
      dsimp only [List.nil_append]
      rw [if_pos (by decide), splitWs_cons_of_ws r (by decide)]
    | cons d t2 =>
      have hd : d.isWhitespace = false := by
        have h2 := hw.2
        simp only [List.all_cons, Bool.and_eq_true, Bool.not_eq_true'] at h2
        exact h2.1
      have ih2 := ih (by simp) hw.2
      rw [List.cons_append] at ih2 ⊢
      dsimp only
      rw [if_neg (by simp [hd]), ih2]

theorem splitWs_joinList {l : List Str}
    (h : ∀ w ∈ l, w ≠ [] ∧ w.all (fun c => !c.isWhitespace) = true) :
    splitWs (joinList l) = l := by
  induction l with
  | nil => rfl
  | cons w rest ih =>
    cases rest with
    | nil =>
      have hw := h w (List.mem_cons_self w [])
      exact splitWs_word hw.1 hw.2
    | cons w2 rest2 =>
      have hw := h w (List.mem_cons_self w _)
      have hj : joinList (w :: w2 :: rest2) = w ++ ' ' :: joinList (w2 :: rest2) := rfl
      rw [hj, splitWs_word_space _ hw.1 hw.2,
        ih (fun v hv => h v (List.mem_cons_of_mem w hv))]

theorem splitWs_good (z : Str) :
    ∀ w ∈ splitWs z, w ≠ [] ∧ w.all (fun c => !c.isWhitespace) = true := by
  induction z with
  | nil => intro w hw; exact absurd hw (List.not_mem_nil w)
  | cons c rest ih =>
    intro w hw
    unfold splitWs at hw
    by_cases hc : c.isWhitespace
    · rw [if_pos hc] at hw
      exact ih w hw
    · rw [if_neg hc] at hw
      cases rest with
      | nil =>
        dsimp only at hw
        rw [List.mem_singleton] at hw
        subst hw
        exact ⟨by simp, by simp [hc]⟩
      | cons d t =>
        dsimp only at hw
        by_cases hd : d.isWhitespace
        · rw [if_pos hd] at hw
          rcases List.mem_cons.mp hw with h1 | h2
          · subst h1
            exact ⟨by simp, by simp [hc]⟩
          · exact ih w h2
        · rw [if_neg hd] at hw
          cases hsp : splitWs (d :: t) with
          | nil =>
            rw [hsp] at hw
            dsimp only at hw
            rw [List.mem_singleton] at hw
            subst hw
            exact ⟨by simp, by simp [hc]⟩
          | cons w1 ws1 =>
            rw [hsp] at hw
            dsimp only at hw
            rcases List.mem_cons.mp hw with h1 | h2
            · subst h1
              have hg := ih w1 (by rw [hsp]; exact List.mem_cons_self w1 ws1)
              refine ⟨by simp, ?_⟩
              simp only [List.all_cons, Bool.and_eq_true]
              exact ⟨by simp [hc], hg.2⟩
            · exact ih w (by rw [hsp]; exact List.mem_cons_of_mem w1 h2)

theorem splitWs_append_ws (x : Str) {t : Str}
    (ht : ∀ c ∈ t, c.isWhitespace = true) :
    splitWs (x ++ t) = splitWs x := by
  induction x with
  | nil => simpa using splitWs_all_ws ht
  | cons c rest ih =>
    rw [List.cons_append]
    by_cases hc : c.isWhitespace
    · unfold splitWs
      rw [if_pos hc, if_pos hc]
      exact ih
    · unfold splitWs
      rw [if_neg hc, if_neg hc]
      cases rest with
      | nil =>
        dsimp only [List.nil_append]
        cases t with
        | nil => rfl
        | cons d t2 =>
          have hd : d.isWhitespace = true := ht d (List.mem_cons_self d t2)
          dsimp only
          rw [if_pos hd, splitWs_all_ws ht]
      | cons d r2 =>
        rw [List.cons_append]
        dsimp only
        by_cases hd : d.isWhitespace
        · rw [if_pos hd, if_pos hd, ← List.cons_append, ih]
        · rw [if_neg hd, if_neg hd, ← List.cons_append, ih]

theorem splitWs_dropWhile (x : Str) :
    splitWs (x.dropWhile Char.isWhitespace) = splitWs x := by
  induction x with
  | nil => rfl
  | cons c rest ih =>
    rw [List.dropWhile_cons]
    by_cases hc : c.isWhitespace = true
    · rw [if_pos hc, ih, splitWs_cons_of_ws rest hc]
    · rw [if_neg hc]

theorem splitWs_pyStrip (x : Str) : splitWs (pyStrip x) = splitWs x := by
  unfold pyStrip
  rw [← splitWs_dropWhile x]
  set m := x.dropWhile Char.isWhitespace with hm
  have hdec : m = (m.reverse.dropWhile Char.isWhitespace).reverse
      ++ (m.reverse.takeWhile Char.isWhitespace).reverse := by
    conv_lhs => rw [← List.reverse_reverse m,
      ← List.takeWhile_append_dropWhile Char.isWhitespace m.reverse]
    rw [List.reverse_append]
  have hws : ∀ c ∈ (m.reverse.takeWhile Char.isWhitespace).reverse,
      c.isWhitespace = true := by
    intro c hcm
    rw [List.mem_reverse] at hcm
    exact List.mem_takeWhile_imp hcm
  calc splitWs ((m.reverse.dropWhile Char.isWhitespace).reverse)
      = splitWs ((m.reverse.dropWhile Char.isWhitespace).reverse
          ++ (m.reverse.takeWhile Char.isWhitespace).reverse) :=
        (splitWs_append_ws _ hws).symm
    _ = splitWs m := by rw [← hdec]

theorem splitWs_joinWords (z : Str) : splitWs (joinWords z) = splitWs z := by
  unfold joinWords
  exact splitWs_joinList (splitWs_good z)

theorem joinWords_strip_idem (z : Str) :
    joinWords (pyStrip (joinWords z)) = joinWords z := by
  unfold joinWords
  rw [splitWs_pyStrip, splitWs_joinList (splitWs_good z)]

theorem canonN_idem (ext : Env)
    (hn : ∀ s, ext.nfkc (joinWords (pyStrip (ext.nfkc s)))
        = joinWords (pyStrip (ext.nfkc s)))
    (x : Option Str) (hne : canonN ext x ≠ some []) :
    canonN ext (canonN ext x) = canonN ext x := by
  cases x with
  | none => rfl
  | some s =>
    by_cases hs : s = []
    · have h1 : canonN ext (some s) = none := by
        unfold canonN
        dsimp only
        rw [if_pos hs]
      rw [h1]
      rfl
    · have h1 : canonN ext (some s) = some (joinWords (pyStrip (ext.nfkc s))) := by
        unfold canonN normalize_text
        dsimp only
        rw [if_neg hs]
      have ht : joinWords (pyStrip (ext.nfkc s)) ≠ [] := by
        intro hnil
        exact hne (by rw [h1, hnil])
      rw [h1]
      unfold canonN normalize_text
      dsimp only
      rw [if_neg ht]
      rw [hn s, joinWords_strip_idem]

/-!
Phone re-normalization: every `normalize_phone` output is a fixed point
of `keepDigitsPlus`, and under `phoneRefeedOK` re-normalizing returns
the value unchanged.
-/

theorem filter_fix {f : Char → Bool} (s : Str) : (s.filter f).filter f = s.filter f :=
  List.filter_eq_self.mpr (fun _ ha => List.of_mem_filter ha)

theorem keepDigitsPlus_of_digits {s : Str} (h : s.all Char.isDigit = true) :
    keepDigitsPlus s = s := by
  unfold keepDigitsPlus
  rw [List.filter_eq_self]
  intro a ha
  rw [List.all_eq_true] at h
  simp [h a ha]

theorem onlyDigits_of_digits {s : Str} (h : s.all Char.isDigit = true) :
    onlyDigits s = s := by
  unfold onlyDigits
  rw [List.filter_eq_self]
  intro a ha
  exact h.symm ▸ List.all_eq_true.mp h a ha

theorem onlyDigits_all (s : Str) : (onlyDigits s).all Char.isDigit = true := by
  rw [List.all_eq_true]
  intro a ha
  exact List.of_mem_filter ha

theorem lookup_cc {k v : Str} (h : COUNTRY_CODE.lookup k = some v) :
    v.head? = some '+' ∧ v.all (fun c => c.isDigit || c = '+') = true := by
  unfold COUNTRY_CODE at h
  simp only [List.lookup] at h
  repeat' split at h
  all_goals first
    | (injection h with h; subst h; decide)
    | exact Option.noConfusion h

theorem normalize_phone_out {pr ct : Option Str} {p : Str}
    (h : normalize_phone pr ct = some p) :
    p ≠ [] ∧ keepDigitsPlus p = p
      ∧ (p.head? = some '+' ∨ p.all Char.isDigit = true) := by
  unfold normalize_phone at h
  split at h
  · exact absurd h (by simp)
  · dsimp only at h
    split at h
    · rename_i hcond
      injection h with h
      subst h
      refine ⟨?_, filter_fix _, Or.inl hcond.1⟩
      intro hnil
      rw [hnil] at hcond
      exact absurd hcond.1 (by simp)
    · split at h
      · rename_i code heq
        split at h
        · injection h with h
          subst h
          obtain ⟨hc1, hc2⟩ := lookup_cc heq
          have hcode : code ≠ [] := by
            intro hnil
            rw [hnil] at hc1
            exact absurd hc1 (by simp)
          have hkeep : keepDigitsPlus (code ++
              (onlyDigits (keepDigitsPlus (pyGetStr pr))).dropWhile
                (fun c => c = '0')) = code ++
              (onlyDigits (keepDigitsPlus (pyGetStr pr))).dropWhile
                (fun c => c = '0') := by
            rw [keepDigitsPlus, List.filter_eq_self]
            intro b hb
            rcases List.mem_append.mp hb with hb | hb
            · exact List.all_eq_true.mp hc2 b hb
            · have : b ∈ onlyDigits (keepDigitsPlus (pyGetStr pr)) :=
                (List.dropWhile_sublist _).mem hb
              simp [List.of_mem_filter this]
          refine ⟨?_, hkeep, ?_⟩
          · simp [hcode]
          · left
            cases code with
            | nil => exact absurd rfl hcode
            | cons a t =>
              simp only [List.head?] at hc1
              injection hc1 with hc1
              subst hc1
              rfl
        · split at h
          · exact Option.noConfusion h
          · injection h with h
            subst h
            rename_i hne
            refine ⟨hne, keepDigitsPlus_of_digits (onlyDigits_all _),
              Or.inr (onlyDigits_all _)⟩
      · split at h
        · exact Option.noConfusion h
        · injection h with h
          subst h
          rename_i hne
          refine ⟨hne, keepDigitsPlus_of_digits (onlyDigits_all _),
            Or.inr (onlyDigits_all _)⟩

theorem normalize_phone_refeed {pr ct : Option Str} {p : Str} (ct2 : Option Str)
    (h : normalize_phone pr ct = some p)
    (hok : (p.head? = some '+' ∧ 8 ≤ (onlyDigits p).length)
        ∨ (p.head? ≠ some '+'
            ∧ COUNTRY_CODE.lookup (pyUpper (pyGetStr ct2)) = none)) :
    normalize_phone (some p) ct2 = some p := by
  obtain ⟨pne, kfix, hshape⟩ := normalize_phone_out h
  unfold normalize_phone
  rw [if_neg (by simp [pyTruthy, pne])]
  dsimp only
  simp only [show pyGetStr (some p) = p from rfl]
  rw [kfix]
  rcases hok with ⟨h1, h2⟩ | ⟨h1, hl⟩
  · rw [if_pos ⟨h1, h2⟩]
  · rw [if_neg (fun hc => h1 hc.1), hl]
    dsimp only
    rcases hshape with hs | hs
    · exact absurd hs h1
    · rw [onlyDigits_of_digits hs, if_neg pne]

/-!
Integer rendering round-trips: `canonOrderId` and `parse_quantity`
recover the value from its decimal rendering.
-/

theorem all_imp {l : Str} {f g : Char → Bool} (h : l.all f = true)
    (hi : ∀ c, f c = true → g c = true) : l.all g = true := by
  rw [List.all_eq_true] at h ⊢
  intro a ha
  exact hi a (h a ha)

theorem lowChar_fix {c : Char} (h : c.isDigit = true ∨ c = '-') : lowChar c = c := by
  rw [lowChar.eq_def]
  split <;> first | rfl | (rcases h with h | h <;> exact absurd h (by decide))

theorem renderInt_chars (z : Int) :
    (renderInt z).all (fun c => c.isDigit || decide (c = '-')) = true := by
  unfold renderInt
  split
  · rw [List.all_cons, Bool.and_eq_true]
    exact ⟨by decide, all_imp (renderNat_digits _) (fun c hc => by simp [hc])⟩
  · exact all_imp (renderNat_digits _) (fun c hc => by simp [hc])

theorem renderInt_ne_nil (z : Int) : renderInt z ≠ [] := by
  unfold renderInt
  split
  · simp
  · exact renderNat_ne_nil _

theorem renderInt_no_ws (z : Int) :
    (renderInt z).all (fun c => !c.isWhitespace) = true := by
  refine all_imp (renderInt_chars z) (fun c hc => ?_)
  simp only [Bool.or_eq_true] at hc
  rcases hc with h | h
  · exact ws_false_of_digit h
  · simp only [decide_eq_true_eq] at h
    subst h
    decide

theorem pyLower_renderInt (z : Int) : pyLower (renderInt z) = renderInt z := by
  unfold pyLower
  conv_rhs => rw [← List.map_id (renderInt z)]
  refine List.map_congr_left (fun c hc => ?_)
  have hch := List.all_eq_true.mp (renderInt_chars z) c hc
  simp only [Bool.or_eq_true] at hch
  rcases hch with h | h
  · simp only [id_eq]
    exact lowChar_fix (Or.inl h)
  · simp only [decide_eq_true_eq] at h
    simp only [id_eq]
    exact lowChar_fix (Or.inr h)

theorem renderInt_head (z : Int) :
    ∀ c, (renderInt z).head? = some c → (c.isDigit = true ∨ c = '-') := by
  intro c hc
  have hall := renderInt_chars z
  cases hr : renderInt z with
  | nil => rw [hr] at hc; exact Option.noConfusion hc
  | cons a t =>
    rw [hr] at hc hall
    simp only [List.head?] at hc
    injection hc with hc
    subst hc
    have hm := List.all_eq_true.mp hall _ (List.mem_cons_self _ _)
    simp only [Bool.or_eq_true] at hm
    rcases hm with h | h
    · exact Or.inl h
    · exact Or.inr (by simpa using h)

theorem wordToInt_lookup_none {s : Str}
    (hh : ∀ c, s.head? = some c → (c.isDigit = true ∨ c = '-')) (hs : s ≠ []) :
    WORD_TO_INT.lookup s = none := by
  cases s with
  | nil => exact absurd rfl hs
  | cons c t =>
    have hc := hh c rfl
    have hz : ∀ (d : Char) (r : Str), d.isDigit = false → ¬d = '-' → (c :: t) ≠ d :: r := by
      intro d r hd1 hd2 he
      injection he with he1 _
      subst he1
      rcases hc with h | h
      · rw [h] at hd1
        exact Bool.noConfusion hd1
      · exact hd2 h
    have mk : ∀ (d : Char) (r : Str), d.isDigit = false → ¬d = '-' →
        ((c :: t) == d :: r) = false :=
      fun d r h1 h2 => beq_eq_false_iff_ne.mpr (hz d r h1 h2)
    have k01 : ((c :: t) == ("zero".toList)) = false := mk 'z' ("ero".toList) (by decide) (by decide)
    have k02 : ((c :: t) == ("one".toList)) = false := mk 'o' ("ne".toList) (by decide) (by decide)
    have k03 : ((c :: t) == ("two".toList)) = false := mk 't' ("wo".toList) (by decide) (by decide)
    have k04 : ((c :: t) == ("three".toList)) = false := mk 't' ("hree".toList) (by decide) (by decide)
    have k05 : ((c :: t) == ("four".toList)) = false := mk 'f' ("our".toList) (by decide) (by decide)
    have k06 : ((c :: t) == ("five".toList)) = false := mk 'f' ("ive".toList) (by decide) (by decide)
    have k07 : ((c :: t) == ("six".toList)) = false := mk 's' ("ix".toList) (by decide) (by decide)
    have k08 : ((c :: t) == ("seven".toList)) = false := mk 's' ("even".toList) (by decide) (by decide)
    have k09 : ((c :: t) == ("eight".toList)) = false := mk 'e' ("ight".toList) (by decide) (by decide)
    have k10 : ((c :: t) == ("nine".toList)) = false := mk 'n' ("ine".toList) (by decide) (by decide)
    have k11 : ((c :: t) == ("ten".toList)) = false := mk 't' ("en".toList) (by decide) (by decide)
    unfold WORD_TO_INT
    simp only [List.lookup, k01, k02, k03, k04, k05, k06, k07, k08, k09, k10, k11]

theorem isIntLit_renderInt (z : Int) : isIntLit (renderInt z) = true := by
  rw [isIntLit.eq_def]
  split
  · rename_i rest heq
    unfold renderInt at heq
    split at heq
    · injection heq with _ h2
      subst h2
      simp [List.isEmpty_iff, renderNat_ne_nil, renderNat_digits]
    · exfalso
      have hall := renderNat_digits z.natAbs
      rw [heq] at hall
      simp only [List.all_cons, Bool.and_eq_true] at hall
      exact absurd hall.1 (by decide)
  · unfold renderInt
    split
    · rename_i hnm hz
      exact absurd (show renderInt z = '-' :: renderNat z.natAbs by
        unfold renderInt; rw [if_pos hz]) (fun he => hnm _ he)
    · simp [List.isEmpty_iff, renderNat_ne_nil, renderNat_digits]

theorem intOfStr_renderInt (z : Int) : intOfStr (renderInt z) = z := by
  rw [intOfStr.eq_def]
  split
  · rename_i rest heq
    unfold renderInt at heq
    split at heq
    · rename_i hz
      injection heq with _ h2
      subst h2
      rw [natOfDigits_renderNat]
      omega
    · exfalso
      have hall := renderNat_digits z.natAbs
      rw [heq] at hall
      simp only [List.all_cons, Bool.and_eq_true] at hall
      exact absurd hall.1 (by decide)
  · unfold renderInt
    split
    · rename_i hnm hz
      exact absurd (show renderInt z = '-' :: renderNat z.natAbs by
        unfold renderInt; rw [if_pos hz]) (fun he => hnm _ he)
    · rename_i hz
      rw [natOfDigits_renderNat]
      omega

theorem parse_quantity_refeed (z : Int) :
    parse_quantity (some (renderInt z)) = some z := by
  have hne : renderInt z ≠ [] := renderInt_ne_nil z
  unfold parse_quantity
  dsimp only
  rw [if_neg hne, pyStrip_eq_self (renderInt_no_ws z), pyLower_renderInt,
    wordToInt_lookup_none (renderInt_head z) hne]
  dsimp only
  rw [if_pos (isIntLit_renderInt z), intOfStr_renderInt]

theorem canonOrderId_refeed {r : RawRow} (m : Nat)
    (h : r.order_id = some (renderInt (m : Int))) :
    canonOrderId r = some (m : Int) := by
  unfold canonOrderId
  rw [h]
  have hri : renderInt (m : Int) = renderNat m := by
    unfold renderInt
    rw [if_neg (by omega)]
    norm_num
  rw [hri]
  rw [if_pos (by simp [pyTruthy, List.isEmpty_iff, renderNat_ne_nil])]
  simp only [show pyGetStr (some (renderNat m)) = renderNat m from rfl]
  rw [onlyDigits_of_digits (renderNat_digits m),
    if_neg (renderNat_ne_nil m), natOfDigits_renderNat]

theorem canonOrderId_shape {raw : RawRow} {z : Int} (h : canonOrderId raw = some z) :
    ∃ m : Nat, z = (m : Int) := by
  unfold canonOrderId at h
  split at h
  · dsimp only at h
    split at h
    · exact Option.noConfusion h
    · injection h with h
      exact ⟨_, h.symm⟩
  · exact Option.noConfusion h

/-!
Price re-parsing, part 1: `priceStr` is the identity on strings over
digits, `.` and `-` (exactly the alphabet `renderPrice` produces).
-/

theorem numChar_cases {c : Char}
    (h : (c.isDigit || c = '.' || c = '-') = true) :
    c.isDigit = true ∨ c = '.' ∨ c = '-' := by
  simp only [Bool.or_eq_true, decide_eq_true_eq] at h
  tauto

theorem numChar_not_letter {c : Char}
    (h : (c.isDigit || c = '.' || c = '-') = true) : isLetterAZ c = false := by
  rcases numChar_cases h with h | h | h
  · simp only [Char.isDigit, Bool.and_eq_true, decide_eq_true_eq] at h
    simp only [isLetterAZ, Bool.or_eq_false_iff, Bool.and_eq_false_iff]
    obtain ⟨h0, h1⟩ := h
    have h1n : c.val.toNat ≤ 57 := h1
    constructor
    · left
      simp only [decide_eq_false_iff_not]
      intro hc
      have hcn : (65 : Nat) ≤ c.val.toNat := hc
      omega
    · left
      simp only [decide_eq_false_iff_not]
      intro hc
      have hcn : (97 : Nat) ≤ c.val.toNat := hc
      omega
  · subst h; decide
  · subst h; decide

theorem numChar_not_ws {c : Char}
    (h : (c.isDigit || c = '.' || c = '-') = true) : (!c.isWhitespace) = true := by
  rcases numChar_cases h with h | h | h
  · exact ws_false_of_digit h
  · subst h; decide
  · subst h; decide

theorem numChar_ne {c x : Char}
    (h : (c.isDigit || c = '.' || c = '-') = true)
    (h1 : x.isDigit = false) (h2 : x ≠ '.') (h3 : x ≠ '-') : c ≠ x := by
  rcases numChar_cases h with h | h | h
  · exact ne_of_isDigit h h1
  · subst h; exact fun he => h2 he.symm
  · subst h; exact fun he => h3 he.symm

theorem stripAlpha3RunsF_no_letters (fuel : Nat) {s : Str}
    (h : s.all (fun c => !isLetterAZ c) = true) : stripAlpha3RunsF fuel s = s := by
  induction fuel generalizing s with
  | zero => cases s <;> rfl
  | succ fuel ih =>
    cases s with
    | nil => rfl
    | cons a rest =>
      rw [List.all_cons, Bool.and_eq_true] at h
      have ha : isLetterAZ a = false := by
        have h1 := h.1
        rwa [Bool.not_eq_true'] at h1
      cases rest with
      | nil => rfl
      | cons b rest1 =>
        cases rest1 with
        | nil => rfl
        | cons c rest2 =>
          conv_lhs => unfold stripAlpha3RunsF
          dsimp only
          rw [if_neg (fun hc => by rw [hc.1] at ha; exact Bool.noConfusion ha)]
          rw [ih h.2]

theorem stripAlpha3Runs_no_letters {s : Str}
    (h : s.all (fun c => !isLetterAZ c) = true) : stripAlpha3Runs s = s :=
  stripAlpha3RunsF_no_letters _ h

theorem commaHeadMatch_no_comma {c1 : Char} {rest : Str} (h : ',' ∉ rest) :
    commaHeadMatch c1 rest = false := by
  rw [commaHeadMatch.eq_def]
  split
  · exfalso
    simp_all
  · rfl

theorem commaDecimalPattern_no_comma {s : Str} (h : ',' ∉ s) :
    commaDecimalPattern s = false := by
  induction s with
  | nil => rfl
  | cons c1 rest ih =>
    unfold commaDecimalPattern
    rw [commaHeadMatch_no_comma (fun hm => h (List.mem_cons_of_mem c1 hm)),
      ih (fun hm => h (List.mem_cons_of_mem c1 hm))]
    rfl

theorem decimalNormalize_no_comma {s : Str} (h : ',' ∉ s) :
    decimalNormalize s = s := by
  unfold decimalNormalize
  rw [if_neg (fun hc => h hc.1)]
  rw [if_neg (by rw [commaDecimalPattern_no_comma h]; simp)]
  rw [List.filter_eq_self]
  intro a ha
  simpa using fun (he : a = ',') => h (he ▸ ha)

theorem priceStr_fix {s : Str}
    (hall : s.all (fun c => c.isDigit || c = '.' || c = '-') = true) :
    priceStr (some s) = s := by
  have hgen : ∀ x : Char, x.isDigit = false → ¬x = '.' → ¬x = '-' →
      s.filter (fun c => c ≠ x) = s := by
    intro x h1 h2 h3
    rw [List.filter_eq_self]
    intro a ha
    simpa using numChar_ne (List.all_eq_true.mp hall a ha) h1 h2 h3
  have hnws : s.all (fun c => !c.isWhitespace) = true :=
    all_imp hall (fun c hc => numChar_not_ws hc)
  have hnocomma : ',' ∉ s := fun hm =>
    absurd (List.all_eq_true.mp hall _ hm) (by decide)
  unfold priceStr
  dsimp only
  simp only [show pyGetStr (some s) = s from rfl]
  rw [pyStrip_eq_self hnws,
    stripAlpha3Runs_no_letters (all_imp hall (fun c hc => by rw [numChar_not_letter hc]; rfl))]
  have hsym : CURRENCY_SYMBOL.foldl (fun t p => t.filter (fun c => c ≠ p.1)) s = s := by
    simp only [CURRENCY_SYMBOL, List.foldl]
    rw [hgen '$' (by decide) (by decide) (by decide),
      hgen '€' (by decide) (by decide) (by decide),
      hgen '£' (by decide) (by decide) (by decide),
      hgen '¥' (by decide) (by decide) (by decide),
      hgen '元' (by decide) (by decide) (by decide),
      hgen '円' (by decide) (by decide) (by decide)]
  rw [hsym, pyStrip_eq_self hnws, decimalNormalize_no_comma hnocomma,
    hgen ' ' (by decide) (by decide) (by decide),
    List.filter_eq_self.mpr (fun a ha => List.all_eq_true.mp hall a ha)]

theorem renderPrice_chars (q : ℚ) :
    (renderPrice q).all (fun c => c.isDigit || c = '.' || c = '-') = true := by
  unfold renderPrice
  dsimp only
  rw [List.all_append, Bool.and_eq_true]
  constructor
  · rw [List.all_append, Bool.and_eq_true]
    constructor
    · split
      · decide
      · decide
    · exact all_imp (renderNat_digits _) (fun c hc => by simp [hc])
  · rw [List.all_cons, Bool.and_eq_true]
    exact ⟨by decide,
      all_imp (padLeftZeros_digits _ _ (renderNat_digits _)) (fun c hc => by simp [hc])⟩

/-!
Price re-parsing, part 2: every float the parser produces has a
denominator dividing a power of ten, and `renderPrice` is exact for
such rationals.
-/

theorem dvd_pow_ten_self {d : Nat} (m : Nat) (hd : 0 < d) (h : d ∣ 10 ^ m) :
    d ∣ 10 ^ d := by
  induction d using Nat.strong_induction_on with
  | _ d ih =>
    rcases Nat.lt_or_ge d 2 with h2 | h2
    · have hd1 : d = 1 := by omega
      rw [hd1]
      exact one_dvd _
    · have hprime := Nat.minFac_prime (by omega : d ≠ 1)
      have hpd := Nat.minFac_dvd d
      have hp10 : d.minFac ∣ 10 := by
        have h1 : d.minFac ∣ 10 ^ m := dvd_trans hpd h
        exact hprime.dvd_of_dvd_pow h1
      have hp25 : d.minFac = 2 ∨ d.minFac = 5 := by
        have hle : d.minFac ≤ 10 := Nat.le_of_dvd (by norm_num) hp10
        have h2le := hprime.two_le
        interval_cases hmf : d.minFac <;>
          first
            | (left; rfl)
            | (right; rfl)
            | (exfalso; revert hp10; decide)
            | (exfalso; revert hprime; decide)
      set p := d.minFac with hpdef
      obtain ⟨d', hd'⟩ := hpd
      have hppos : 0 < p := hprime.pos
      have hd'pos : 0 < d' := by
        rcases Nat.eq_zero_or_pos d' with h0 | h0
        · rw [h0, Nat.mul_zero] at hd'; omega
        · exact h0
      have hd'lt : d' < d := by
        have : 2 * d' ≤ p * d' := Nat.mul_le_mul_right d' (by omega)
        omega
      have hd'd : d' ∣ d := by
        rw [hd']
        exact dvd_mul_left d' p
      have hd'dvd : d' ∣ 10 ^ m := dvd_trans hd'd h
      have hih := ih d' hd'lt hd'pos hd'dvd
      have hstep : d ∣ 10 ^ (d' + 1) := by
        rw [hd', pow_succ, Nat.mul_comm (10 ^ d') 10]
        exact Nat.mul_dvd_mul hp10 hih
      refine dvd_trans hstep (pow_dvd_pow 10 ?_)
      have : 2 * d' ≤ p * d' := Nat.mul_le_mul_right d' (by omega)
      omega

theorem parseFloatPos_den {t : Str} {q : ℚ} (h : parseFloatPos t = some q) :
    ∃ e : Nat, (q.den : Nat) ∣ 10 ^ e := by
  unfold parseFloatPos at h
  split at h
  · injection h with h
    subst h
    refine ⟨(t.dropWhile (fun c => c ≠ '.')).length - 1, ?_⟩
    set n := natOfDigits (t.filter (fun c => c ≠ '.')) with hn
    set e := (t.dropWhile (fun c => c ≠ '.')).length - 1 with he
    have heq : ((n : ℚ) / 10 ^ e) = Rat.divInt (n : ℤ) ((10 : ℤ) ^ e) := by
      rw [Rat.divInt_eq_div]
      push_cast
      ring
    rw [heq]
    exact_mod_cast Rat.den_dvd (n : ℤ) ((10 : ℤ) ^ e)
  · exact Option.noConfusion h

theorem parseFloat?_den {s : Str} {q : ℚ} (h : parseFloat? s = some q) :
    ∃ e : Nat, (q.den : Nat) ∣ 10 ^ e := by
  unfold parseFloat? at h
  split at h
  · cases hp : parseFloatPos (s.drop 1) with
    | none => rw [hp] at h; exact Option.noConfusion h
    | some q0 =>
      rw [hp, Option.map_some'] at h
      injection h with h
      subst h
      obtain ⟨e, he⟩ := parseFloatPos_den hp
      exact ⟨e, by rwa [Rat.neg_den]⟩
  · exact parseFloatPos_den h

theorem renderPrice_roundtrip (q : ℚ) (hden : (q.den : Nat) ∣ 10 ^ q.den) :
    parseFloat? (renderPrice q) = some q := by
  have hk1 : 1 ≤ q.den := q.pos
  unfold renderPrice
  dsimp only
  set k := q.den with hkdef
  set n0 : Nat := q.num.natAbs * 10 ^ k / k with hn0
  have hrN := renderNat_digits (n0 / 10 ^ k)
  have hrBd := renderNat_digits (n0 % 10 ^ k)
  have hBl : (renderNat (n0 % 10 ^ k)).length ≤ k :=
    renderNat_len _ k hk1 (Nat.mod_lt _ (by positivity))
  have hB : (padLeftZeros k (renderNat (n0 % 10 ^ k))).all Char.isDigit = true :=
    padLeftZeros_digits _ _ hrBd
  have hBlen : (padLeftZeros k (renderNat (n0 % 10 ^ k))).length = k :=
    padLeftZeros_len _ _ hBl
  have hne : renderNat (n0 / 10 ^ k) ++ padLeftZeros k (renderNat (n0 % 10 ^ k)) ≠ [] := by
    intro hnil
    exact renderNat_ne_nil _ (List.append_eq_nil.mp hnil).1
  have hval : ((natOfDigits (renderNat (n0 / 10 ^ k)
        ++ padLeftZeros k (renderNat (n0 % 10 ^ k))) : ℚ))
      / 10 ^ (padLeftZeros k (renderNat (n0 % 10 ^ k))).length
      = ((n0 : ℚ)) / 10 ^ k := by
    rw [natOfDigits_append, natOfDigits_padLeft, natOfDigits_renderNat,
      natOfDigits_renderNat, hBlen]
    congr 1
    have h0 := Nat.div_add_mod n0 (10 ^ k)
    rw [Nat.mul_comm (10 ^ k) (n0 / 10 ^ k)] at h0
    exact_mod_cast congrArg (fun m : Nat => (m : ℚ)) h0
  have hnat : n0 * k = q.num.natAbs * 10 ^ k := by
    rw [hn0]
    exact Nat.div_mul_cancel (Dvd.dvd.mul_left hden _)
  have habs : ((n0 : ℚ)) / 10 ^ k = (q.num.natAbs : ℚ) / (k : ℚ) := by
    rw [div_eq_div_iff (by positivity) (by positivity)]
    exact_mod_cast congrArg (fun m : Nat => (m : ℚ)) hnat
  by_cases hqneg : q < 0
  · rw [if_pos hqneg, List.singleton_append, List.cons_append, parseFloat?_dash,
      parseFloatPos_intFrac _ _ hrN hB hne, Option.map_some', hval, habs]
    have hnumneg : q.num < 0 := by
      by_contra hge
      push_neg at hge
      exact absurd (Rat.num_nonneg.mp hge) (not_le.mpr hqneg)
    have hnatAbs : (q.num.natAbs : ℤ) = -q.num := by omega
    have hcast : ((q.num.natAbs : ℚ)) = -((q.num : ℚ)) := by
      have h1 : ((q.num.natAbs : ℤ) : ℚ) = ((q.num.natAbs : ℚ)) := Int.cast_natCast _
      rw [← h1, hnatAbs]
      push_cast
      ring
    rw [hcast, neg_div, neg_neg, hkdef]
    rw [Rat.num_div_den q]
  · rw [if_neg hqneg, List.nil_append,
      parseFloat?_of_head_ne (head_ne_dash_intFrac _ hrN),
      parseFloatPos_intFrac _ _ hrN hB hne, hval, habs]
    have hge : 0 ≤ q.num := Rat.num_nonneg.mpr (le_of_not_lt hqneg)
    have hnatAbs : (q.num.natAbs : ℤ) = q.num := by omega
    have hcast : ((q.num.natAbs : ℚ)) = ((q.num : ℚ)) := by
      have h1 : ((q.num.natAbs : ℤ) : ℚ) = ((q.num.natAbs : ℚ)) := Int.cast_natCast _
      rw [← h1, hnatAbs]
    rw [hcast, hkdef]
    rw [Rat.num_div_den q]

/-!
Price re-parsing, part 3: currency stability.  `priceCurrency` outputs
are fixed points of upper-case-and-strip, and currency detection finds
nothing in a rendered price.
-/

theorem dropWhile_head_false {p : Char → Bool} {l : Str}
    (h : ∀ c, l.head? = some c → p c = false) : l.dropWhile p = l := by
  cases l with
  | nil => rfl
  | cons a t =>
    rw [List.dropWhile_cons, if_neg (by simp [h a rfl])]

theorem dropWhile_head_not {p : Char → Bool} {l : Str} :
    ∀ c, (l.dropWhile p).head? = some c → p c = false := by
  induction l with
  | nil => intro c hc; exact Option.noConfusion hc
  | cons a t ih =>
    intro c hc
    rw [List.dropWhile_cons] at hc
    by_cases hp : p a = true
    · rw [if_pos hp] at hc
      exact ih c hc
    · rw [if_neg hp] at hc
      simp only [List.head?] at hc
      injection hc with hc
      subst hc
      exact Bool.eq_false_iff.mpr hp

theorem pyStrip_idem (s : Str) : pyStrip (pyStrip s) = pyStrip s := by
  unfold pyStrip
  set A := s.dropWhile Char.isWhitespace with hA
  set D := A.reverse.dropWhile Char.isWhitespace with hD
  have h1 : D.reverse.dropWhile Char.isWhitespace = D.reverse := by
    apply dropWhile_head_false
    intro c hc
    rw [List.head?_reverse] at hc
    have hDne : D ≠ [] := fun h0 => Option.noConfusion (h0 ▸ hc)
    have hsuf : D <:+ A.reverse := by
      rw [hD]
      exact List.dropWhile_suffix _
    obtain ⟨pre, hpre⟩ := hsuf
    have hAc : A.head? = some c := by
      rw [← List.getLast?_reverse, ← hpre, List.getLast?_append_of_ne_nil _ hDne]
      exact hc
    exact dropWhile_head_not c (hA ▸ hAc)
  have h2 : D.dropWhile Char.isWhitespace = D := by
    apply dropWhile_head_false
    intro c hc
    exact dropWhile_head_not c (hD ▸ hc)
  rw [h1, List.reverse_reverse, h2]

theorem ws_upChar (c : Char) : (upChar c).isWhitespace = c.isWhitespace := by
  rw [upChar.eq_def]
  split <;> rfl

theorem pyUpper_pyStrip_comm (x : Str) : pyStrip (pyUpper x) = pyUpper (pyStrip x) := by
  have hcomp : Char.isWhitespace ∘ upChar = Char.isWhitespace := funext ws_upChar
  unfold pyStrip pyUpper
  simp only [List.dropWhile_map, hcomp, ← List.map_reverse]

theorem upperStrip_fix (x : Str) :
    pyUpper (pyStrip (pyUpper (pyStrip x))) = pyUpper (pyStrip x) := by
  rw [pyUpper_pyStrip_comm, pyStrip_idem, pyUpper_idem]

theorem upChar_of_upper {c : Char} (h : isUpperAZ c = true) : upChar c = c := by
  rw [upChar.eq_def]
  split <;> first | rfl | (exfalso; revert h; decide)

theorem upper_not_ws {c : Char} (h : isUpperAZ c = true) : (!c.isWhitespace) = true := by
  simp only [isUpperAZ, Bool.and_eq_true, decide_eq_true_eq] at h
  have h1 : (65 : Nat) ≤ c.val.toNat := h.1
  by_contra hw
  simp only [Bool.not_eq_eq_eq_not, Bool.not_true, Bool.not_eq_false] at hw
  unfold Char.isWhitespace at hw
  simp only [Bool.or_eq_true, decide_eq_true_eq] at hw
  rcases hw with ((hw | hw) | hw) | hw <;> (subst hw; revert h1; decide)

theorem numChar_not_upper {c : Char}
    (h : (c.isDigit || c = '.' || c = '-') = true) : isUpperAZ c = false := by
  have hl := numChar_not_letter h
  unfold isLetterAZ at hl
  unfold isUpperAZ
  exact (Bool.or_eq_false_iff.mp hl).1

theorem pyOrS_some_ne (x : Str) (y : Option Str) (hx : x ≠ []) :
    pyOrS (some x) y = some x := by
  unfold pyOrS
  dsimp only
  rw [if_neg hx]

theorem pyOrS_some_nil (y : Option Str) : pyOrS (some []) y = y := by
  unfold pyOrS
  dsimp only
  rw [if_pos rfl]

theorem pyOrS_none (y : Option Str) : pyOrS none y = y := rfl

theorem isoSearchAux_none {t : Str} (h : ∀ c ∈ t, isUpperAZ c = false) :
    ∀ prev, isoSearchAux prev t = none := by
  induction t with
  | nil => intro prev; rfl
  | cons a rest ih =>
    intro prev
    cases rest with
    | nil => rfl
    | cons b rest1 =>
      cases rest1 with
      | nil => rfl
      | cons c rest2 =>
        conv_lhs => unfold isoSearchAux
        rw [if_neg (fun hc => absurd hc.2.1 (by
          rw [h a (List.mem_cons_self a _)]
          simp))]
        exact ih (fun d hd => h d (List.mem_cons_of_mem a hd)) (some a)

theorem isoSearchAux_out {t : Str} {cs : Str} :
    ∀ {prev : Option Char}, isoSearchAux prev t = some cs →
      ∃ c1 c2 c3, cs = [c1, c2, c3] ∧ isUpperAZ c1 = true ∧ isUpperAZ c2 = true
        ∧ isUpperAZ c3 = true := by
  induction t with
  | nil => intro prev h; exact Option.noConfusion h
  | cons a rest ih =>
    intro prev h
    cases rest with
    | nil => exact Option.noConfusion h
    | cons b rest1 =>
      cases rest1 with
      | nil => exact Option.noConfusion h
      | cons c rest2 =>
        unfold isoSearchAux at h
        split at h
        · injection h with h
          subst h
          rename_i hcond
          exact ⟨a, b, c, rfl, hcond.2.1, hcond.2.2.1, hcond.2.2.2.1⟩
        · exact ih h

theorem detect_out {txt cs : Str} (h : detect_currency_from_text txt = some cs) :
    cs ≠ [] ∧ pyUpper (pyStrip cs) = cs := by
  unfold detect_currency_from_text at h
  split at h
  · exact Option.noConfusion h
  · split at h
    · rename_i code hiso
      injection h with h
      subst h
      obtain ⟨c1, c2, c3, hcs, h1, h2, h3⟩ := isoSearchAux_out hiso
      subst hcs
      constructor
      · simp
      · have hnws : ([c1, c2, c3] : Str).all (fun c => !c.isWhitespace) = true := by
          simp [List.all_cons, upper_not_ws h1, upper_not_ws h2, upper_not_ws h3]
        rw [pyStrip_eq_self hnws]
        unfold pyUpper
        simp only [List.map_cons, List.map_nil]
        rw [upChar_of_upper h1, upChar_of_upper h2, upChar_of_upper h3]
    · rw [Option.map_eq_some'] at h
      obtain ⟨p, hfind, hcs⟩ := h
      subst hcs
      have hmem := List.mem_of_find?_eq_some hfind
      simp only [CURRENCY_SYMBOL, List.mem_cons, List.not_mem_nil, or_false] at hmem
      rcases hmem with h | h | h | h | h | h <;> (subst h; exact ⟨by decide, by decide⟩)

theorem detect_numeric_none {t : Str}
    (hall : t.all (fun c => c.isDigit || c = '.' || c = '-') = true) :
    detect_currency_from_text t = none := by
  unfold detect_currency_from_text
  split
  · rfl
  · rw [isoSearchAux_none
      (fun c hc => numChar_not_upper (List.all_eq_true.mp hall c hc)) none]
    dsimp only
    rw [List.find?_eq_none.mpr ?_]
    · rfl
    · intro p hp
      simp only [CURRENCY_SYMBOL, List.mem_cons, List.not_mem_nil, or_false] at hp
      suffices hns : p.1 ∉ t by simpa using hns
      intro hmem
      have hch := List.all_eq_true.mp hall _ hmem
      rcases hp with h | h | h | h | h | h <;> (subst h; exact absurd hch (by decide))

theorem priceCurrency_out {v cc : Option Str} {cs : Str}
    (h : priceCurrency v cc = some cs) :
    cs ≠ [] ∧ pyUpper (pyStrip cs) = cs := by
  unfold priceCurrency at h
  dsimp only at h
  set U := pyUpper (pyStrip (pyGetStr cc)) with hU
  by_cases hUe : U = []
  · rw [hUe, pyOrS_some_nil] at h
    cases hD1 : detect_currency_from_text (pyStrip (pyGetStr v)) with
    | some code =>
      rw [hD1] at h
      have hout := detect_out hD1
      rw [pyOrS_some_ne code _ hout.1] at h
      injection h with h
      subst h
      exact hout
    | none =>
      rw [hD1, pyOrS_none] at h
      cases hD2 : detect_currency_from_text (pyGetStr v) with
      | some code =>
        rw [hD2] at h
        injection h with h
        subst h
        exact detect_out hD2
      | none =>
        rw [hD2] at h
        exact Option.noConfusion h
  · rw [pyOrS_some_ne U _ hUe, pyOrS_some_ne U _ hUe] at h
    injection h with h
    subst h
    refine ⟨hUe, ?_⟩
    rw [hU]
    exact upperStrip_fix _

theorem renderPrice_ne_nil (q : ℚ) : renderPrice q ≠ [] := by
  unfold renderPrice
  dsimp only
  intro h
  have h2 := (List.append_eq_nil.mp h).2
  exact List.noConfusion h2

theorem priceCurrency_refeed (q : ℚ) {cur2 : Option Str}
    (hcur : cur2 = none ∨ ∃ cs, cur2 = some cs ∧ cs ≠ [] ∧ pyUpper (pyStrip cs) = cs) :
    priceCurrency (some (renderPrice q)) cur2 = cur2 := by
  have hchars := renderPrice_chars q
  have hnws : (renderPrice q).all (fun c => !c.isWhitespace) = true :=
    all_imp hchars (fun c hc => numChar_not_ws hc)
  unfold priceCurrency
  dsimp only
  simp only [show pyGetStr (some (renderPrice q)) = renderPrice q from rfl]
  rw [pyStrip_eq_self hnws, detect_numeric_none hchars]
  rcases hcur with h | ⟨cs, hcs, hne, hfix⟩
  · subst h
    rfl
  · subst hcs
    simp only [show pyGetStr (some cs) = cs from rfl]
    rw [hfix, pyOrS_some_ne cs _ hne, pyOrS_some_ne cs _ hne]

theorem parse_price_refeed (v cc : Option Str) :
    parse_price ((parse_price v cc).1.map renderPrice) ((parse_price v cc).2)
      = parse_price v cc := by
  by_cases hb : ¬pyTruthy v ∧ ¬pyTruthy cc
  · have h0 : parse_price v cc = (none, none) := by
      unfold parse_price
      rw [if_pos hb]
    rw [h0]
    dsimp only
    unfold parse_price
    rw [if_pos ⟨by decide, by decide⟩]
  · have h0 : parse_price v cc = (parseFloat? (priceStr v), priceCurrency v cc) := by
      unfold parse_price
      rw [if_neg hb]
    rw [h0]
    dsimp only
    have hcur : priceCurrency v cc = none
        ∨ ∃ cs, priceCurrency v cc = some cs ∧ cs ≠ [] ∧ pyUpper (pyStrip cs) = cs := by
      cases hc : priceCurrency v cc with
      | none => exact Or.inl rfl
      | some cs =>
        exact Or.inr ⟨cs, rfl, (priceCurrency_out hc).1, (priceCurrency_out hc).2⟩
    cases hq : parseFloat? (priceStr v) with
    | some q =>
      simp only [Option.map_some']
      have htr : pyTruthy (some (renderPrice q)) = true := by
        simp [pyTruthy, List.isEmpty_iff, renderPrice_ne_nil]
      unfold parse_price
      rw [if_neg (fun hcon => hcon.1 htr)]
      rw [priceStr_fix (renderPrice_chars q)]
      obtain ⟨e, he⟩ := parseFloat?_den hq
      rw [renderPrice_roundtrip q (dvd_pow_ten_self e q.pos he),
        priceCurrency_refeed q hcur]
    | none =>
      simp only [Option.map_none']
      rcases hcur with hnone | ⟨cs, hcs, hne, hfix⟩
      · rw [hnone]
        unfold parse_price
        rw [if_pos ⟨by decide, by decide⟩]
      · rw [hcs]
        unfold parse_price
        rw [if_neg (fun hcon => hcon.2 (by simp [pyTruthy, List.isEmpty_iff, hne]))]
        have hps : parseFloat? (priceStr (none : Option Str)) = none := by rfl
        have hpc : priceCurrency none (some cs) = some cs := by
          unfold priceCurrency
          dsimp only
          simp only [show pyGetStr (some cs) = cs from rfl,
            show pyGetStr (none : Option Str) = ([] : Str) from rfl]
          rw [hfix,
            show detect_currency_from_text (pyStrip ([] : Str)) = none from rfl,
            pyOrS_some_ne cs _ hne, pyOrS_some_ne cs _ hne]
        rw [hps, hpc]

attribute [ext] Canon

/-- C8 (amended): re-canonicalization is the identity provided NFKC is
stable on normalized text, the flexible date parser is consistent on
ISO renderings, the phone survives re-normalization and no normalized
text field is the empty string. -/
theorem claim8_amended (ext : Env) (raw : RawRow)
    (hn : ∀ s, ext.nfkc (joinWords (pyStrip (ext.nfkc s)))
        = joinWords (pyStrip (ext.nfkc s)))
    (hf1 : ∀ dt, ValidDate dt →
        ext.flex (isoDate dt) = some dt ∨ ext.flex (isoDate dt) = none)
    (hf2 : ∀ s dt, ext.flex s = some dt → ValidDate dt)
    (hp : phoneRefeedOK (canonicalize_row ext raw) = true)
    (hne : noEmptyStrFields (canonicalize_row ext raw) = true) :
    canonicalize_row ext (renderCanon (canonicalize_row ext raw))
      = canonicalize_row ext raw := by
  set c := canonicalize_row ext raw with hc
  have hfoid : c.order_id = canonOrderId raw := rfl
  have hfphone : c.phone = normalize_phone raw.phone raw.country := rfl
  have hfctry : c.country = (if pyUpper (pyGetStr raw.country) = []
      then none else some (pyUpper (pyGetStr raw.country))) := rfl
  have hfod : c.order_date = parse_date ext.flex raw.order_date := rfl
  have hfsd : c.ship_date = parse_date ext.flex raw.ship_date := rfl
  have hfq : c.quantity = parse_quantity raw.quantity := rfl
  have hfup : c.unit_price = (parse_price raw.unit_price raw.currency).1 := rfl
  have hfcur : c.currency = (parse_price raw.unit_price raw.currency).2 := rfl
  have hfci : c.customer_id = canonN ext raw.customer_id := rfl
  have hfcn : c.customer_name = canonN ext raw.customer_name := rfl
  have hfem : c.email = canonN ext raw.email := rfl
  have hfst : c.state = canonN ext raw.state := rfl
  have hfcy : c.city = canonN ext raw.city := rfl
  have hfad : c.address = canonN ext raw.address := rfl
  have hfpc : c.postal_code = canonN ext raw.postal_code := rfl
  have hfsm : c.ship_mode = canonN ext raw.ship_mode := rfl
  have hfsku : c.item_sku = canonN ext raw.item_sku := rfl
  have hfin : c.item_name = canonN ext raw.item_name := rfl
  have hfdc : c.discount_code = canonN ext raw.discount_code := rfl
  have hfon : c.order_notes = canonN ext raw.order_notes := rfl
  simp only [noEmptyStrFields, Bool.and_eq_true, decide_eq_true_eq] at hne
  obtain ⟨⟨⟨⟨⟨⟨⟨⟨⟨⟨⟨e1, e2⟩, e3⟩, e4⟩, e5⟩, e6⟩, e7⟩, e8⟩, e9⟩, e10⟩, e11⟩, e12⟩ := hne
  refine Canon.ext ?_ ?_ ?_ ?_ ?_ ?_ ?_ ?_ ?_ ?_ ?_ ?_ ?_ ?_ ?_ ?_ ?_ ?_ ?_ ?_
  · show canonOrderId (renderCanon c) = c.order_id
    cases hoid : c.order_id with
    | none =>
      unfold canonOrderId
      rw [show (renderCanon c).order_id = c.order_id.map renderInt from rfl, hoid]
      rfl
    | some z =>
      obtain ⟨m, hm⟩ := canonOrderId_shape (show canonOrderId raw = some z by
        rw [← hfoid]; exact hoid)
      subst hm
      exact canonOrderId_refeed m (by
        rw [show (renderCanon c).order_id = c.order_id.map renderInt from rfl, hoid]
        rfl)
  · show canonN ext (renderCanon c).customer_id = c.customer_id
    rw [show (renderCanon c).customer_id = c.customer_id from rfl, hfci]
    exact canonN_idem ext hn raw.customer_id (by rw [← hfci]; exact e1)
  · show canonN ext (renderCanon c).customer_name = c.customer_name
    rw [show (renderCanon c).customer_name = c.customer_name from rfl, hfcn]
    exact canonN_idem ext hn raw.customer_name (by rw [← hfcn]; exact e2)
  · show canonN ext (renderCanon c).email = c.email
    rw [show (renderCanon c).email = c.email from rfl, hfem]
    exact canonN_idem ext hn raw.email (by rw [← hfem]; exact e3)
  · show normalize_phone (renderCanon c).phone (renderCanon c).country = c.phone
    rw [show (renderCanon c).phone = c.phone from rfl,
      show (renderCanon c).country = c.country from rfl]
    cases hph : c.phone with
    | none => rfl
    | some p =>
      have hraw : normalize_phone raw.phone raw.country = some p := by
        rw [← hfphone]; exact hph
      unfold phoneRefeedOK at hp
      rw [hph] at hp
      dsimp only at hp
      simp only [Bool.or_eq_true, Bool.and_eq_true, decide_eq_true_eq,
        Option.isNone_iff_eq_none] at hp
      exact normalize_phone_refeed c.country hraw hp
  · show (if pyUpper (pyGetStr (renderCanon c).country) = [] then none
        else some (pyUpper (pyGetStr (renderCanon c).country))) = c.country
    rw [show (renderCanon c).country = c.country from rfl, hfctry]
    by_cases hcu : pyUpper (pyGetStr raw.country) = []
    · rw [if_pos hcu, if_pos (show pyUpper (pyGetStr (none : Option Str)) = [] from rfl)]
    · rw [if_neg hcu,
        show pyGetStr (some (pyUpper (pyGetStr raw.country)))
          = pyUpper (pyGetStr raw.country) from rfl,
        pyUpper_idem, if_neg hcu]
  · show canonN ext (renderCanon c).state = c.state
    rw [show (renderCanon c).state = c.state from rfl, hfst]
    exact canonN_idem ext hn raw.state (by rw [← hfst]; exact e4)
  · show canonN ext (renderCanon c).city = c.city
    rw [show (renderCanon c).city = c.city from rfl, hfcy]
    exact canonN_idem ext hn raw.city (by rw [← hfcy]; exact e5)
  · show canonN ext (renderCanon c).address = c.address
    rw [show (renderCanon c).address = c.address from rfl, hfad]
    exact canonN_idem ext hn raw.address (by rw [← hfad]; exact e6)
  · show canonN ext (renderCanon c).postal_code = c.postal_code
    rw [show (renderCanon c).postal_code = c.postal_code from rfl, hfpc]
    exact canonN_idem ext hn raw.postal_code (by rw [← hfpc]; exact e7)
  · show parse_date ext.flex (renderCanon c).order_date = c.order_date
    rw [show (renderCanon c).order_date = c.order_date from rfl]
    cases hod : c.order_date with
    | none => rfl
    | some d =>
      exact parse_date_idem hf1 hf2 (show parse_date ext.flex raw.order_date = some d by
        rw [← hfod]; exact hod)
  · show parse_date ext.flex (renderCanon c).ship_date = c.ship_date
    rw [show (renderCanon c).ship_date = c.ship_date from rfl]
    cases hsd : c.ship_date with
    | none => rfl
    | some d =>
      exact parse_date_idem hf1 hf2 (show parse_date ext.flex raw.ship_date = some d by
        rw [← hfsd]; exact hsd)
  · show canonN ext (renderCanon c).ship_mode = c.ship_mode
    rw [show (renderCanon c).ship_mode = c.ship_mode from rfl, hfsm]
    exact canonN_idem ext hn raw.ship_mode (by rw [← hfsm]; exact e8)
  · show canonN ext (renderCanon c).item_sku = c.item_sku
    rw [show (renderCanon c).item_sku = c.item_sku from rfl, hfsku]
    exact canonN_idem ext hn raw.item_sku (by rw [← hfsku]; exact e9)
  · show canonN ext (renderCanon c).item_name = c.item_name
    rw [show (renderCanon c).item_name = c.item_name from rfl, hfin]
    exact canonN_idem ext hn raw.item_name (by rw [← hfin]; exact e10)
  · show parse_quantity (renderCanon c).quantity = c.quantity
    rw [show (renderCanon c).quantity = c.quantity.map renderInt from rfl]
    cases hq : c.quantity with
    | none => rfl
    | some z =>
      simp only [Option.map_some']
      exact parse_quantity_refeed z
  · show (parse_price (renderCanon c).unit_price (renderCanon c).currency).1
        = c.unit_price
    rw [show (renderCanon c).unit_price = c.unit_price.map renderPrice from rfl,
      show (renderCanon c).currency = c.currency from rfl, hfup, hfcur,
      parse_price_refeed raw.unit_price raw.currency]
  · show (parse_price (renderCanon c).unit_price (renderCanon c).currency).2
        = c.currency
    rw [show (renderCanon c).unit_price = c.unit_price.map renderPrice from rfl,
      show (renderCanon c).currency = c.currency from rfl, hfup, hfcur,
      parse_price_refeed raw.unit_price raw.currency]
  · show canonN ext (renderCanon c).discount_code = c.discount_code
    rw [show (renderCanon c).discount_code = c.discount_code from rfl, hfdc]
    exact canonN_idem ext hn raw.discount_code (by rw [← hfdc]; exact e11)
  · show canonN ext (renderCanon c).order_notes = c.order_notes
    rw [show (renderCanon c).order_notes = c.order_notes from rfl, hfon]
    exact canonN_idem ext hn raw.order_notes (by rw [← hfon]; exact e12)

/-- C8 (counterexample): re-canonicalizing the rendered canonical form
of the row with phone `"12345"` and country `"US"` changes the phone
(`"+112345"` re-normalizes to `"+1112345"`), so canonicalization is not
idempotent in general. -/
theorem claim8_counterexample :
    canonicalize_row env0 (renderCanon (canonicalize_row env0 rawPhoneCex))
      ≠ canonicalize_row env0 rawPhoneCex := by
  decide

/-- C8 (witness): on a fully populated well-behaved row the amended
idempotence theorem applies with all side conditions discharged. -/
theorem claim8_witness :
    canonicalize_row env0 (renderCanon (canonicalize_row env0 rawGood))
      = canonicalize_row env0 rawGood :=
  claim8_amended env0 rawGood (fun _ => rfl) (fun _ _ => Or.inr rfl)
    (fun _ _ h => Option.noConfusion h) (by decide) (by decide)
